import Mathlib

/-!
Verification of the jsmn-go JSON tokenizer from the safeheaders-go
repository.

The definitions below are a shallow embedding of the current jsmn.go
(the variant with the token-overflow check in allocToken, the no-op
colon case in the dispatch loop, the strict unclosed-container
validation after the loop, and the small-input fallback in
ParseParallel).  Input bytes are modelled as Nat values, Go int fields
that can hold the -1 sentinel (Start, End, ParentIdx, toksuper) are
modelled as Int, and each Go while-loop is modelled by a fuel-indexed
structural recursion.  The fuel supplied by the entry points (input
length plus one) always suffices, because every loop iteration of the
source either returns or advances the position cursor; the artificial
outOfFuel outcome is kept distinct from the error values of the source.
-/

namespace Jsmn

/-- The four token kinds of jsmn-go (Go type TokenType). -/
inductive TokenType where
  | object
  | array
  | string
  | primitive
deriving DecidableEq, Repr

/-- Token record: kind, byte span, child count and parent link (Go type
Token).  Start, End and ParentIdx are Go ints that can hold the -1
sentinel, so they are modelled as Int; Size is only ever 0 or
incremented, so Nat is faithful. -/
structure Token where
  type : TokenType
  startPos : Int
  endPos : Int
  size : Nat
  parentIdx : Int
deriving DecidableEq, Repr

/-- Go zero value of Token: TokenType(0) is Object, all numeric fields 0. -/
instance : Inhabited Token := ⟨⟨.object, 0, 0, 0, 0⟩⟩

/-- Error outcomes of the tokenizer.  The first four correspond to the
errors the Go source returns (token overflow, unclosed string, empty
primitive, unclosed object or array).  outOfFuel is an artifact of the
fuel-indexed modelling of the Go while-loops; the entry points supply
enough fuel for it never to occur. -/
inductive Err where
  | overflow
  | unclosedString
  | emptyPrimitive
  | unclosedContainer
  | outOfFuel
deriving DecidableEq, Repr

/-- Parser state (Go type Parser): byte cursor, next free token slot,
current-container cursor (-1 for none) and the fixed-capacity token
array. -/
structure Parser where
  pos : Nat
  toknext : Nat
  toksuper : Int
  tokens : List Token
deriving DecidableEq, Repr

/-- NewParser: a parser with numTokens zero-valued token slots.  The Go
zero value of the int field toksuper is 0; Parse resets it to -1. -/
def NewParser (numTokens : Nat) : Parser :=
  { pos := 0, toknext := 0, toksuper := 0, tokens := List.replicate numTokens default }

/-- allocToken: fails with overflow when all slots are used, otherwise
writes tok into slot toknext, increments the current container's Size
when one is active, and advances toknext. -/
def Parser.allocToken (p : Parser) (tok : Token) : Except Err Parser :=
  if p.tokens.length ≤ p.toknext then
    .error .overflow
  else
    let ts := p.tokens.set p.toknext tok
    let ts :=
      if p.toksuper ≠ -1 then
        let j := p.toksuper.toNat
        ts.set j { ts.getD j default with size := (ts.getD j default).size + 1 }
      else ts
    .ok { p with tokens := ts, toknext := p.toknext + 1 }

/-- The scan loop of parseString: starting at the byte after the opening
quote, an unescaped quote (byte 34) allocates the string token with End
at the quote position and steps past it; a backslash (byte 92) followed
by another byte is skipped as a two-byte unit; end of buffer means the
string was never closed. -/
def parseStringLoop (json : List Nat) (tok : Token) : Nat → Parser → Except Err Parser
  | 0, _ => .error .outOfFuel
  | fuel + 1, p =>
    if p.pos < json.length then
      let c := json.getD p.pos 0
      if c = 34 then
        match p.allocToken { tok with endPos := (p.pos : Int) } with
        | .error e => .error e
        | .ok p1 => .ok { p1 with pos := p1.pos + 1 }
      else if c = 92 ∧ p.pos + 1 < json.length then
        parseStringLoop json tok fuel { p with pos := p.pos + 2 }
      else
        parseStringLoop json tok fuel { p with pos := p.pos + 1 }
    else
      .error .unclosedString

/-- parseString: skip the opening quote, then scan for the closing one.
The token is created with Start just past the opening quote and the
current container as parent, exactly as in the source. -/
def Parser.parseString (p : Parser) (json : List Nat) : Except Err Parser :=
  let p := { p with pos := p.pos + 1 }
  let tok : Token :=
    { type := .string, startPos := (p.pos : Int), endPos := -1, size := 0,
      parentIdx := p.toksuper }
  parseStringLoop json tok (json.length + 1) p

/-- The scan loop of parsePrimitive: advance until a delimiter byte
(space 32, tab 9, newline 10, carriage return 13, comma 44, right
bracket 93, right brace 125) or end of buffer.  Only the position
changes. -/
def parsePrimLoop (json : List Nat) : Nat → Parser → Parser
  | 0, p => p
  | fuel + 1, p =>
    if p.pos < json.length then
      let c := json.getD p.pos 0
      if c = 32 ∨ c = 9 ∨ c = 10 ∨ c = 13 ∨ c = 44 ∨ c = 93 ∨ c = 125 then p
      else parsePrimLoop json fuel { p with pos := p.pos + 1 }
    else p

/-- parsePrimitive: the token spans from the entry position to the first
delimiter; a zero-length span is the empty-primitive error, otherwise
the token is allocated with the current container as parent. -/
def Parser.parsePrimitive (p : Parser) (json : List Nat) : Except Err Parser :=
  let tok : Token :=
    { type := .primitive, startPos := (p.pos : Int), endPos := -1, size := 0,
      parentIdx := p.toksuper }
  let p1 := parsePrimLoop json (json.length + 1) p
  let tok := { tok with endPos := (p1.pos : Int) }
  if tok.endPos = tok.startPos then .error .emptyPrimitive
  else p1.allocToken tok

/-- The dispatch loop of Parse, one fuel unit per iteration of the Go
for-loop.  Byte codes: 123 is the left brace, 91 the left bracket, 125
the right brace, 93 the right bracket, 34 the double quote, 9 tab, 13
carriage return, 10 newline, 32 space, 58 the colon, 44 the comma. -/
def parseLoop (json : List Nat) : Nat → Parser → Except Err Parser
  | 0, _ => .error .outOfFuel
  | fuel + 1, p =>
    if p.pos < json.length then
      if json.getD p.pos 0 = 123 ∨ json.getD p.pos 0 = 91 then
        match p.allocToken
            { type := if json.getD p.pos 0 = 123 then .object else .array,
              startPos := (p.pos : Int), endPos := -1, size := 0,
              parentIdx := p.toksuper } with
        | .error e => .error e
        | .ok p1 =>
          parseLoop json fuel
            { p1 with toksuper := (p1.toknext : Int) - 1, pos := p1.pos + 1 }
      else if json.getD p.pos 0 = 125 ∨ json.getD p.pos 0 = 93 then
        if p.toksuper ≠ -1 then
          parseLoop json fuel
            { p with
              tokens := p.tokens.set p.toksuper.toNat
                { p.tokens.getD p.toksuper.toNat default with
                  endPos := ((p.pos + 1 : Nat) : Int) },
              toksuper := (p.tokens.getD p.toksuper.toNat default).parentIdx,
              pos := p.pos + 1 }
        else
          parseLoop json fuel { p with pos := p.pos + 1 }
      else if json.getD p.pos 0 = 34 then
        match p.parseString json with
        | .error e => .error e
        | .ok p1 => parseLoop json fuel p1
      else if json.getD p.pos 0 = 9 ∨ json.getD p.pos 0 = 13 ∨
          json.getD p.pos 0 = 10 ∨ json.getD p.pos 0 = 32 then
        parseLoop json fuel { p with pos := p.pos + 1 }
      else if json.getD p.pos 0 = 58 then
        parseLoop json fuel { p with pos := p.pos + 1 }
      else if json.getD p.pos 0 = 44 then
        if p.toksuper ≠ -1 ∧
            (p.tokens.getD p.toksuper.toNat default).type ≠ .array ∧
            (p.tokens.getD p.toksuper.toNat default).type ≠ .object then
          parseLoop json fuel
            { p with
              toksuper := (p.tokens.getD p.toksuper.toNat default).parentIdx,
              pos := p.pos + 1 }
        else
          parseLoop json fuel { p with pos := p.pos + 1 }
      else
        match p.parsePrimitive json with
        | .error e => .error e
        | .ok p1 => parseLoop json fuel p1
    else
      .ok p

/-- The post-loop normalization of Parse: every token slot whose End is
still the -1 sentinel and whose Start is not -1 is closed at the buffer
length. -/
def normalizeTok (len : Nat) (t : Token) : Token :=
  if t.endPos = -1 ∧ t.startPos ≠ -1 then { t with endPos := (len : Int) } else t

/-- Parse: reset the state, run the dispatch loop, normalize the End
fields, then fail with unclosedContainer when the current-container
cursor is still set; on success return the parser together with the
token count toknext (the Go function returns the count and mutates the
parser in place). -/
def Parser.Parse (p : Parser) (json : List Nat) : Except Err (Parser × Nat) :=
  let p := { p with pos := 0, toknext := 0, toksuper := -1 }
  match parseLoop json (json.length + 1) p with
  | .error e => .error e
  | .ok p =>
    let p := { p with tokens := p.tokens.map (normalizeTok json.length) }
    if p.toksuper ≠ -1 then .error .unclosedContainer
    else .ok (p, p.toknext)

/-- Tokens: the used prefix of the token array. -/
def Parser.Tokens (p : Parser) : List Token :=
  p.tokens.take p.toknext

/-- The byte sequence of the first spec example, the 34 bytes of a JSON
object with the keys key and arr, the string value value and the array
value of the three one-digit numbers 1, 2 and 3 (ASCII codes). -/
def ex1 : List Nat :=
  [123, 34, 107, 101, 121, 34, 58, 32, 34, 118, 97, 108, 117, 101, 34, 44, 32,
   34, 97, 114, 114, 34, 58, 32, 91, 49, 44, 32, 50, 44, 32, 51, 93, 125]

/-- The byte sequence of the third spec example: an object with key a and
value 1 whose closing brace is missing (ASCII codes). -/
def ex3 : List Nat := [123, 34, 97, 34, 58, 49]

/-- The eight tokens the scanner produces for ex1, in discovery order. -/
def ex1Tokens : List Token :=
  [⟨.object, 0, 34, 4, -1⟩, ⟨.string, 2, 5, 0, 0⟩,
   ⟨.string, 9, 14, 0, 0⟩, ⟨.string, 18, 21, 0, 0⟩,
   ⟨.array, 24, 33, 3, 0⟩, ⟨.primitive, 25, 26, 0, 4⟩,
   ⟨.primitive, 28, 29, 0, 4⟩, ⟨.primitive, 31, 32, 0, 4⟩]

/-- The final parser state of a capacity-8 Parse of ex1. -/
def ex1Parsed : Parser := ⟨34, 8, -1, ex1Tokens⟩

/-- The final parser state of a capacity-10 Parse of ex1 (two slots
remain zero-valued). -/
def ex1Parsed10 : Parser := ⟨34, 8, -1, ex1Tokens ++ [default, default]⟩

/-- A container token kind: Object or Array, the only kinds that can be a
parent. -/
def isContainer (ty : TokenType) : Prop := ty = .object ∨ ty = .array

instance (ty : TokenType) : Decidable (isContainer ty) := by
  unfold isContainer; infer_instance

/-- Modelled from the spec: the position of the first unescaped double
quote at or after position i, where a backslash followed by another byte
is skipped as a two-byte unit; none when the end of the buffer is
reached first.  This is the reference point for the string sub-scanner
claims. -/
def firstUnescapedQuote (json : List Nat) (i : Nat) : Option Nat :=
  if _h : i < json.length then
    let c := json.getD i 0
    if c = 34 then some i
    else if c = 92 ∧ i + 1 < json.length then firstUnescapedQuote json (i + 2)
    else firstUnescapedQuote json (i + 1)
  else none
termination_by json.length - i
decreasing_by all_goals omega

/-- Agreement of two token arrays on the first t slots. -/
def TokensRel (t : Nat) (l₁ l₂ : List Token) : Prop :=
  ∀ k, k < t → l₁.getD k default = l₂.getD k default

/-- Two parser states that agree on everything except the unused tail of
the token array (and hence possibly on its capacity). -/
def StateRel (p₁ p₂ : Parser) : Prop :=
  p₁.pos = p₂.pos ∧ p₁.toknext = p₂.toknext ∧ p₁.toksuper = p₂.toksuper ∧
    TokensRel p₁.toknext p₁.tokens p₂.tokens

/-- The parent link of slot i is the sentinel or an earlier-indexed
container slot. -/
def parentOk (ts : List Token) (i : Nat) : Prop :=
  (ts.getD i default).parentIdx = -1 ∨
    ∃ m : Nat, m < i ∧ (ts.getD i default).parentIdx = (m : Int) ∧
      isContainer (ts.getD m default).type

/-- Number of slots among the first t whose parent link is j. -/
def childCount (ts : List Token) (t : Nat) (j : Nat) : Nat :=
  (List.range t).countP (fun i => decide ((ts.getD i default).parentIdx = (j : Int)))

/-- The scanner invariant: the used slots fit the capacity, the
current-container cursor is the sentinel or a used container slot, every
used slot has a well-formed parent link, and every used slot's Size
equals the number of used slots whose parent link points at it. -/
def Inv (p : Parser) : Prop :=
  p.toknext ≤ p.tokens.length ∧
  (p.toksuper = -1 ∨ ∃ m : Nat, m < p.toknext ∧ p.toksuper = (m : Int) ∧
      isContainer (p.tokens.getD m default).type) ∧
  (∀ i, i < p.toknext → parentOk p.tokens i) ∧
  (∀ j, j < p.toknext → (p.tokens.getD j default).size = childCount p.tokens p.toknext j)

/-- The current-container cursor is the sentinel or a used slot index. -/
def SupOk (p : Parser) : Prop :=
  p.toksuper = -1 ∨ ∃ m : Nat, m < p.toknext ∧ p.toksuper = (m : Int)

/-- The string token the source builds when the closing quote sits at
position e: span from just past the opening quote up to (and excluding)
the closing quote, parent the current container. -/
def strTok (p : Parser) (e : Nat) : Token :=
  { type := .string, startPos := ((p.pos + 1 : Nat) : Int), endPos := (e : Int),
    size := 0, parentIdx := p.toksuper }

/-- The primitive token the source builds when the scan stops at
position n: span from the entry position up to the first delimiter,
parent the current container. -/
def primTok (p : Parser) (n : Nat) : Token :=
  { type := .primitive, startPos := (p.pos : Int), endPos := (n : Int),
    size := 0, parentIdx := p.toksuper }

/-- What the run of one scanner says about a second scanner in the same
position whose token array may have a different capacity. -/
def RelOut (json : List Nat) (fuel : Nat) (len₁ : Nat) (p₂ : Parser) :
    Except Err Parser → Prop
  | .ok q₁ =>
    (q₁.toknext ≤ p₂.tokens.length →
      ∃ q₂, parseLoop json fuel p₂ = .ok q₂ ∧ StateRel q₁ q₂ ∧
        q₂.tokens.length = p₂.tokens.length) ∧
    (p₂.tokens.length < q₁.toknext → parseLoop json fuel p₂ = .error .overflow)
  | .error e =>
    e ≠ .overflow → len₁ ≤ p₂.tokens.length → parseLoop json fuel p₂ = .error e

/-- The first error among the worker results, by worker index.  The Go
driver returns one nondeterministically scheduled worker error from its
error channel; this deterministic rendering picks the least-index one. -/
def firstWorkerErr : List (Except Err (List Token)) → Option Err
  | [] => none
  | .error e :: _ => some e
  | .ok _ :: rest => firstWorkerErr rest

/-- Concatenation of the successful worker token slices in worker order
(the naive merge of the source; ParentIdx, Start and End stay
chunk-relative). -/
def mergeWorkers : List (Except Err (List Token)) → List Token
  | [] => []
  | .error _ :: rest => mergeWorkers rest
  | .ok ts :: rest => ts ++ mergeWorkers rest

/-- One worker of the chunked driver: a fresh parser with the full
numTokens capacity over the byte range of chunk i (the last worker takes
the remainder of the buffer). -/
def workerResults (json : List Nat) (numTokens numWorkers chunkSize : Nat) :
    List (Except Err (List Token)) :=
  (List.range numWorkers).map (fun i =>
    match (NewParser numTokens).Parse
        ((json.drop (i * chunkSize)).take
          ((if i = numWorkers - 1 then json.length else i * chunkSize + chunkSize)
            - i * chunkSize)) with
    | .error e => .error e
    | .ok (p, _) => .ok p.Tokens)

/-- ParseParallel.  Inputs shorter than 512 bytes fall back to a single
non-chunked scan, exactly as in the source.  For larger inputs the source
spawns one goroutine per chunk with a worker count taken from
runtime.NumCPU and capped at 4; the processor count is environment
input, so it appears here as the explicit argument numCPU, and the
first-error-wins channel selection is rendered deterministically by
worker index. -/
def ParseParallel (numCPU : Nat) (json : List Nat) (numTokens : Nat) :
    Except Err (List Token) :=
  if json.length < 512 then
    match (NewParser numTokens).Parse json with
    | .error e => .error e
    | .ok (p, _) => .ok p.Tokens
  else
    match firstWorkerErr (workerResults json numTokens
        (if (json.length / (if numCPU > 4 then 4 else numCPU)) = 0 then 1
          else (if numCPU > 4 then 4 else numCPU))
        (if (json.length / (if numCPU > 4 then 4 else numCPU)) = 0 then json.length
          else (json.length / (if numCPU > 4 then 4 else numCPU)))) with
    | some e => .error e
    | none => .ok (mergeWorkers (workerResults json numTokens
        (if (json.length / (if numCPU > 4 then 4 else numCPU)) = 0 then 1
          else (if numCPU > 4 then 4 else numCPU))
        (if (json.length / (if numCPU > 4 then 4 else numCPU)) = 0 then json.length
          else (json.length / (if numCPU > 4 then 4 else numCPU)))))

/-- Error outcome of the streaming adapter: either the wrapped failure of
the underlying byte source (the Go code wraps the read error in a new
message) or an error of the tokenizer itself. -/
inductive StreamError (ε : Type) where
  | sourceRead (e : ε)
  | parse (e : Err)
deriving DecidableEq, Repr

/-- ParseStream: the io.Reader is modelled, per the specification of the
external collaborator, as a single read-everything outcome delivering
either the full byte buffer or a read error.  On bytes, delegate to a
fresh single-buffer scan. -/
def ParseStream {ε : Type} (source : Except ε (List Nat)) (numTokens : Nat) :
    Except (StreamError ε) (List Token) :=
  match source with
  | .error e => .error (.sourceRead e)
  | .ok json =>
    match (NewParser numTokens).Parse json with
    | .error e => .error (.parse e)
    | .ok (p, _) => .ok p.Tokens

section ListHelpers

variable {α : Type _}

theorem getD_set_self (l : List α) {i : Nat} (h : i < l.length) (a d : α) :
    (l.set i a).getD i d = a := by
  simp [List.getD_eq_getElem?_getD, List.getElem?_set_self h]

theorem getD_set_ne (l : List α) {i j : Nat} (h : i ≠ j) (a d : α) :
    (l.set i a).getD j d = l.getD j d := by
  simp [List.getD_eq_getElem?_getD, List.getElem?_set_ne h]

theorem getD_take {l : List α} {i n : Nat} (h : i < n) (d : α) :
    (l.take n).getD i d = l.getD i d := by
  simp [List.getD_eq_getElem?_getD, List.getElem?_take, h]

theorem getD_map_lt {l : List α} {β : Type _} {i : Nat} (h : i < l.length)
    (f : α → β) (d : β) (d' : α) :
    (l.map f).getD i d = f (l.getD i d') := by
  simp [List.getD_eq_getElem?_getD, List.getElem?_map,
    List.getElem?_eq_getElem h]

theorem take_eq_of_getD {l₁ l₂ : List α} {n : Nat} (d : α)
    (h₁ : n ≤ l₁.length) (h₂ : n ≤ l₂.length)
    (h : ∀ k, k < n → l₁.getD k d = l₂.getD k d) :
    l₁.take n = l₂.take n := by
  apply List.ext_getElem?
  intro k
  rw [List.getElem?_take, List.getElem?_take]
  by_cases hk : k < n
  · simp only [if_pos hk]
    have e := h k hk
    rw [List.getD_eq_getElem?_getD, List.getD_eq_getElem?_getD,
      List.getElem?_eq_getElem (show k < l₁.length by omega),
      List.getElem?_eq_getElem (show k < l₂.length by omega)] at e
    simp only [Option.getD_some] at e
    rw [List.getElem?_eq_getElem (show k < l₁.length by omega),
      List.getElem?_eq_getElem (show k < l₂.length by omega), e]
  · simp [hk]

theorem countP_range_take {l : List α} {n : Nat} (d : α) (f : α → Bool)
    (h : n ≤ l.length) :
    (List.range n).countP (fun i => f (l.getD i d)) = (l.take n).countP f := by
  induction n with
  | zero => simp
  | succ m ih =>
    have hm : m ≤ l.length := by omega
    have hml : m < l.length := by omega
    have hsome : l[m]? = some l[m] := List.getElem?_eq_getElem hml
    rw [List.range_succ, List.countP_append, ih hm, List.take_succ, hsome,
      List.countP_append]
    simp [List.countP_cons, List.getD_eq_getElem?_getD, hsome]

end ListHelpers

section ChildCount

theorem childCount_succ (ts : List Token) (t j : Nat) :
    childCount ts (t + 1) j =
      childCount ts t j +
        (if (ts.getD t default).parentIdx = (j : Int) then 1 else 0) := by
  unfold childCount
  rw [List.range_succ, List.countP_append]
  simp [List.countP_cons]

theorem childCount_congr {ts ts' : List Token} {t : Nat}
    (h : ∀ i, i < t →
      (ts'.getD i default).parentIdx = (ts.getD i default).parentIdx)
    (j : Nat) : childCount ts' t j = childCount ts t j := by
  unfold childCount
  apply List.countP_congr
  intro i hi
  have hit : i < t := List.mem_range.mp hi
  simp only [decide_eq_true_eq]
  rw [h i hit]

theorem childCount_eq_zero {ts : List Token} {t j : Nat}
    (h : ∀ i, i < t → (ts.getD i default).parentIdx ≠ (j : Int)) :
    childCount ts t j = 0 := by
  unfold childCount
  apply List.countP_eq_zero.mpr
  intro i hi
  have hit : i < t := List.mem_range.mp hi
  simp only [decide_eq_true_eq]
  exact h i hit

end ChildCount

section AllocToken

theorem allocToken_overflow {p : Parser} (tok : Token)
    (h : p.tokens.length ≤ p.toknext) :
    p.allocToken tok = .error .overflow := by
  unfold Parser.allocToken
  simp [h]

theorem allocToken_err {p : Parser} {tok : Token} {e : Err}
    (h : p.allocToken tok = .error e) : e = .overflow := by
  unfold Parser.allocToken at h
  by_cases hc : p.tokens.length ≤ p.toknext
  · rw [if_pos hc] at h
    simp only [Except.error.injEq] at h
    exact h.symm
  · rw [if_neg hc] at h
    simp at h

theorem allocToken_ok_of_lt {p : Parser} (tok : Token)
    (h : p.toknext < p.tokens.length) :
    ∃ q, p.allocToken tok = .ok q := by
  unfold Parser.allocToken
  simp [Nat.not_le.mpr h]

theorem allocToken_ok_spec {p : Parser} {tok : Token} {q : Parser}
    (h : p.allocToken tok = .ok q) :
    p.toknext < p.tokens.length ∧
    q.pos = p.pos ∧ q.toksuper = p.toksuper ∧ q.toknext = p.toknext + 1 ∧
    q.tokens.length = p.tokens.length ∧
    q.tokens = (if p.toksuper ≠ -1 then
        ((p.tokens.set p.toknext tok).set p.toksuper.toNat
          { (p.tokens.set p.toknext tok).getD p.toksuper.toNat default with
            size := ((p.tokens.set p.toknext tok).getD p.toksuper.toNat
              default).size + 1 })
      else p.tokens.set p.toknext tok) := by
  unfold Parser.allocToken at h
  by_cases hc : p.tokens.length ≤ p.toknext
  · simp [hc] at h
  · simp only [if_neg hc] at h
    cases h
    refine ⟨by omega, rfl, rfl, rfl, ?_, rfl⟩
    by_cases hs : p.toksuper ≠ -1 <;> simp [hs, List.length_set]

theorem allocToken_getD_new {p : Parser} {tok : Token} {q : Parser}
    (h : p.allocToken tok = .ok q) (hsup : SupOk p) :
    q.tokens.getD p.toknext default = tok := by
  obtain ⟨hlt, -, -, -, -, hts⟩ := allocToken_ok_spec h
  rw [hts]
  by_cases hs : p.toksuper ≠ -1
  · simp only [if_pos hs]
    rcases hsup with h1 | ⟨m, hm, hmv⟩
    · exact absurd h1 hs
    · have hne : p.toksuper.toNat ≠ p.toknext := by omega
      rw [getD_set_ne _ hne, getD_set_self _ hlt]
  · simp only [if_neg hs]
    rw [getD_set_self _ hlt]

theorem allocToken_getD_old {p : Parser} {tok : Token} {q : Parser} {k : Nat}
    (h : p.allocToken tok = .ok q) (hk : k ≠ p.toknext)
    (hks : p.toksuper = -1 ∨ p.toksuper.toNat ≠ k) :
    q.tokens.getD k default = p.tokens.getD k default := by
  obtain ⟨hlt, -, -, -, -, hts⟩ := allocToken_ok_spec h
  rw [hts]
  by_cases hs : p.toksuper ≠ -1
  · simp only [if_pos hs]
    have hne : p.toksuper.toNat ≠ k := by
      rcases hks with h1 | h2
      · exact absurd h1 hs
      · exact h2
    rw [getD_set_ne _ hne, getD_set_ne _ (fun e => hk e.symm)]
  · simp only [if_neg hs]
    rw [getD_set_ne _ (fun e => hk e.symm)]

theorem allocToken_getD_super {p : Parser} {tok : Token} {q : Parser} {m : Nat}
    (h : p.allocToken tok = .ok q) (hm : p.toksuper = (m : Int))
    (hlt : m < p.toknext) :
    q.tokens.getD m default =
      { p.tokens.getD m default with
        size := (p.tokens.getD m default).size + 1 } := by
  obtain ⟨hcap, -, -, -, -, hts⟩ := allocToken_ok_spec h
  have hs : p.toksuper ≠ -1 := by omega
  rw [hts, if_pos hs]
  have ht : p.toksuper.toNat = m := by omega
  have hmlen : m < (p.tokens.set p.toknext tok).length := by
    rw [List.length_set]; omega
  have hne : p.toknext ≠ m := by omega
  rw [ht, getD_set_self _ hmlen, getD_set_ne _ hne]

/-- Pointwise description of the used slots after an allocation. -/
theorem allocToken_getD_all {p : Parser} {tok : Token} {q : Parser}
    (h : p.allocToken tok = .ok q) (hsup : SupOk p) :
    ∀ k, k < p.toknext →
      q.tokens.getD k default = p.tokens.getD k default ∨
      (p.toksuper = (k : Int) ∧
        q.tokens.getD k default =
          { p.tokens.getD k default with
            size := (p.tokens.getD k default).size + 1 }) := by
  intro k hk
  rcases hsup with h1 | ⟨m, hm, hmv⟩
  · exact Or.inl (allocToken_getD_old h (by omega) (Or.inl h1))
  · by_cases hkm : k = m
    · subst hkm
      exact Or.inr ⟨hmv, allocToken_getD_super h hmv hk⟩
    · refine Or.inl (allocToken_getD_old h (by omega) (Or.inr ?_))
      omega

theorem allocToken_inv {p : Parser} {tok : Token} {q : Parser}
    (hInv : Inv p) (h : p.allocToken tok = .ok q)
    (hpar : tok.parentIdx = p.toksuper) (hsz : tok.size = 0) :
    Inv q := by
  obtain ⟨hcap, hsupc, hpo, hszs⟩ := hInv
  have hsup : SupOk p := by
    rcases hsupc with h1 | ⟨m, hm, hmv, -⟩
    · exact Or.inl h1
    · exact Or.inr ⟨m, hm, hmv⟩
  obtain ⟨hlt, hpos, hsups, htn, hlen, -⟩ := allocToken_ok_spec h
  have hall := allocToken_getD_all h hsup
  have hpres : ∀ k, k < p.toknext →
      (q.tokens.getD k default).parentIdx = (p.tokens.getD k default).parentIdx ∧
      (q.tokens.getD k default).type = (p.tokens.getD k default).type := by
    intro k hk
    rcases hall k hk with h1 | ⟨-, h2⟩
    · rw [h1]; exact ⟨rfl, rfl⟩
    · rw [h2]; exact ⟨rfl, rfl⟩
  have hnew := allocToken_getD_new h hsup
  refine ⟨by omega, ?_, ?_, ?_⟩
  · -- the cursor still points at a container slot
    rcases hsupc with h1 | ⟨m, hm, hmv, hcont⟩
    · exact Or.inl (hsups ▸ h1)
    · refine Or.inr ⟨m, by omega, hsups ▸ hmv, ?_⟩
      rw [(hpres m hm).2]; exact hcont
  · -- parent links of all used slots remain well formed
    intro i hi
    rw [htn] at hi
    by_cases hit : i < p.toknext
    · have hold := hpo i hit
      unfold parentOk at hold ⊢
      rw [(hpres i hit).1]
      rcases hold with h1 | ⟨m, hmi, hmv, hcont⟩
      · exact Or.inl h1
      · refine Or.inr ⟨m, hmi, hmv, ?_⟩
        rw [(hpres m (by omega)).2]; exact hcont
    · have hieq : i = p.toknext := by omega
      subst hieq
      unfold parentOk
      rw [hnew, hpar]
      rcases hsupc with h1 | ⟨m, hm, hmv, hcont⟩
      · exact Or.inl h1
      · refine Or.inr ⟨m, hm, hmv, ?_⟩
        rw [(hpres m hm).2]; exact hcont
  · -- sizes still count the children
    intro j hj
    rw [htn] at hj
    have hcc : ∀ j' : Nat, childCount q.tokens p.toknext j' =
        childCount p.tokens p.toknext j' := by
      intro j'
      exact childCount_congr (fun i hi => (hpres i hi).1) j'
    by_cases hjt : j < p.toknext
    · rw [htn, childCount_succ, hcc j, hnew, hpar]
      rcases hsupc with h1 | ⟨m, hm, hmv, hcont⟩
      · have : ¬ ((-1 : Int) = (j : Int)) := by omega
        rw [h1, if_neg this]
        rcases hall j hjt with h2 | ⟨hjv, -⟩
        · rw [h2, hszs j hjt]; omega
        · rw [h1] at hjv; omega
      · by_cases hjm : j = m
        · subst hjm
          rw [hmv, if_pos rfl]
          rw [allocToken_getD_super h hmv hjt]
          simp only []
          rw [hszs j hjt]
        · have : ¬ ((m : Int) = (j : Int)) := by omega
          rw [hmv, if_neg this]
          rcases hall j hjt with h2 | ⟨hjv, -⟩
          · rw [h2, hszs j hjt]; omega
          · rw [hmv] at hjv
            omega
    · have hjeq : j = p.toknext := by omega
      subst hjeq
      rw [htn, childCount_succ, hcc p.toknext, hnew, hpar, hsz]
      have hz : childCount p.tokens p.toknext p.toknext = 0 := by
        apply childCount_eq_zero
        intro i hi
        rcases hpo i hi with h1 | ⟨m, hmi, hmv, -⟩
        · rw [h1]; omega
        · rw [hmv]; omega
      rw [hz]
      rcases hsupc with h1 | ⟨m, hm, hmv, -⟩
      · rw [h1, if_neg (by omega)]
      · rw [hmv, if_neg (by omega)]


theorem allocToken_rel {p₁ p₂ q₁ : Parser} {tok : Token}
    (hrel : StateRel p₁ p₂) (hsup : SupOk p₁)
    (h₁ : p₁.allocToken tok = .ok q₁) :
    (p₂.toknext < p₂.tokens.length →
      ∃ q₂, p₂.allocToken tok = .ok q₂ ∧ StateRel q₁ q₂ ∧
        q₂.tokens.length = p₂.tokens.length) ∧
    (p₂.tokens.length ≤ p₂.toknext → p₂.allocToken tok = .error .overflow) := by
  obtain ⟨hpos, htn, hsupe, htok⟩ := hrel
  constructor
  · intro hlt₂
    obtain ⟨q₂, h₂⟩ := allocToken_ok_of_lt tok hlt₂
    obtain ⟨hlt₁, hpos₁, hsup₁, htn₁, hlen₁, -⟩ := allocToken_ok_spec h₁
    obtain ⟨-, hpos₂, hsup₂, htn₂, hlen₂, -⟩ := allocToken_ok_spec h₂
    have hsup' : SupOk p₂ := by
      rcases hsup with h1 | ⟨m, hm, hmv⟩
      · exact Or.inl (hsupe ▸ h1)
      · exact Or.inr ⟨m, by omega, hsupe ▸ hmv⟩
    refine ⟨q₂, h₂, ⟨by omega, by omega, by rw [hsup₁, hsup₂, hsupe], ?_⟩,
      by omega⟩
    intro k hk
    rw [htn₁] at hk
    by_cases hkn : k = p₁.toknext
    · subst hkn
      rw [allocToken_getD_new h₁ hsup, htn]
      rw [allocToken_getD_new h₂ hsup']
    · have hkt : k < p₁.toknext := by omega
      rcases hsup with hs1 | ⟨m, hm, hmv⟩
      · rw [allocToken_getD_old h₁ hkn (Or.inl hs1),
          allocToken_getD_old h₂ (by omega) (Or.inl (hsupe ▸ hs1))]
        exact htok k hkt
      · by_cases hkm : k = m
        · subst hkm
          rw [allocToken_getD_super h₁ hmv hm,
            allocToken_getD_super h₂ (hsupe ▸ hmv) (by omega),
            htok k hm]
        · rw [allocToken_getD_old h₁ hkn (Or.inr (by omega)),
            allocToken_getD_old h₂ (by omega)
              (Or.inr (by rw [← hsupe]; omega))]
          exact htok k hkt
  · intro hge
    exact allocToken_overflow tok hge

end AllocToken

section SubScanners

theorem allocToken_set_pos (p : Parser) (tok : Token) (x : Nat) :
    ({ p with pos := x } : Parser).allocToken tok =
      match p.allocToken tok with
      | .error e => .error e
      | .ok q => .ok { q with pos := x } := by
  unfold Parser.allocToken
  by_cases h : p.tokens.length ≤ p.toknext <;> simp [h]

/-- The primitive scan loop only moves the position cursor. -/
theorem parsePrimLoop_shape (json : List Nat) :
    ∀ fuel p, parsePrimLoop json fuel p =
      { p with pos := (parsePrimLoop json fuel p).pos } := by
  intro fuel
  induction fuel with
  | zero => intro p; rfl
  | succ f ih =>
    intro p
    rw [parsePrimLoop]
    by_cases hpos : p.pos < json.length
    · rw [if_pos hpos]
      by_cases hc : json.getD p.pos 0 = 32 ∨ json.getD p.pos 0 = 9 ∨
          json.getD p.pos 0 = 10 ∨ json.getD p.pos 0 = 13 ∨
          json.getD p.pos 0 = 44 ∨ json.getD p.pos 0 = 93 ∨
          json.getD p.pos 0 = 125
      · rw [if_pos hc]
      · rw [if_neg hc]
        exact ih { p with pos := p.pos + 1 }
    · rw [if_neg hpos]

theorem parsePrimLoop_mono (json : List Nat) :
    ∀ fuel p, p.pos ≤ (parsePrimLoop json fuel p).pos := by
  intro fuel
  induction fuel with
  | zero => intro p; exact Nat.le_refl _
  | succ f ih =>
    intro p
    rw [parsePrimLoop]
    by_cases hpos : p.pos < json.length
    · rw [if_pos hpos]
      by_cases hc : json.getD p.pos 0 = 32 ∨ json.getD p.pos 0 = 9 ∨
          json.getD p.pos 0 = 10 ∨ json.getD p.pos 0 = 13 ∨
          json.getD p.pos 0 = 44 ∨ json.getD p.pos 0 = 93 ∨
          json.getD p.pos 0 = 125
      · rw [if_pos hc]
      · rw [if_neg hc]
        have h2 : p.pos + 1 ≤ (parsePrimLoop json f { p with pos := p.pos + 1 }).pos :=
          ih { p with pos := p.pos + 1 }
        omega
    · rw [if_neg hpos]

theorem parsePrimLoop_pos_congr (json : List Nat) :
    ∀ fuel (p₁ p₂ : Parser), p₁.pos = p₂.pos →
      (parsePrimLoop json fuel p₁).pos = (parsePrimLoop json fuel p₂).pos := by
  intro fuel
  induction fuel with
  | zero => intro p₁ p₂ h; exact h
  | succ f ih =>
    intro p₁ p₂ h
    rw [parsePrimLoop, parsePrimLoop, ← h]
    by_cases hpos : p₁.pos < json.length
    · rw [if_pos hpos, if_pos hpos]
      by_cases hc : json.getD p₁.pos 0 = 32 ∨ json.getD p₁.pos 0 = 9 ∨
          json.getD p₁.pos 0 = 10 ∨ json.getD p₁.pos 0 = 13 ∨
          json.getD p₁.pos 0 = 44 ∨ json.getD p₁.pos 0 = 93 ∨
          json.getD p₁.pos 0 = 125
      · rw [if_pos hc, if_pos hc]; exact h
      · rw [if_neg hc, if_neg hc]
        exact ih _ _ rfl
    · rw [if_neg hpos, if_neg hpos]; exact h

/-- When the scan starts on a non-delimiter byte it advances at least one
position. -/
theorem parsePrimLoop_advance (json : List Nat) (fuel : Nat) (p : Parser)
    (hpos : p.pos < json.length)
    (hc : ¬ (json.getD p.pos 0 = 32 ∨ json.getD p.pos 0 = 9 ∨
      json.getD p.pos 0 = 10 ∨ json.getD p.pos 0 = 13 ∨
      json.getD p.pos 0 = 44 ∨ json.getD p.pos 0 = 93 ∨
      json.getD p.pos 0 = 125)) :
    p.pos + 1 ≤ (parsePrimLoop json (fuel + 1) p).pos := by
  rw [parsePrimLoop, if_pos hpos, if_neg hc]
  exact parsePrimLoop_mono json fuel { p with pos := p.pos + 1 }

/-- A found first unescaped quote really is a quote inside the buffer, at
or after the scan start. -/
theorem firstUnescapedQuote_some_aux (json : List Nat) :
    ∀ n i e, json.length - i ≤ n → firstUnescapedQuote json i = some e →
      i ≤ e ∧ e < json.length ∧ json.getD e 0 = 34 := by
  intro n
  induction n with
  | zero =>
    intro i e hn h
    rw [firstUnescapedQuote, dif_neg (by omega : ¬ i < json.length)] at h
    cases h
  | succ m ih =>
    intro i e hn h
    rw [firstUnescapedQuote] at h
    by_cases hi : i < json.length
    · rw [dif_pos hi] at h
      by_cases hq : json.getD i 0 = 34
      · rw [if_pos hq] at h
        cases h
        exact ⟨Nat.le_refl _, hi, hq⟩
      · rw [if_neg hq] at h
        by_cases hesc : json.getD i 0 = 92 ∧ i + 1 < json.length
        · rw [if_pos hesc] at h
          have := ih (i + 2) e (by omega) h
          exact ⟨by omega, this.2.1, this.2.2⟩
        · rw [if_neg hesc] at h
          have := ih (i + 1) e (by omega) h
          exact ⟨by omega, this.2.1, this.2.2⟩
    · rw [dif_neg hi] at h
      cases h

theorem firstUnescapedQuote_some {json : List Nat} {i e : Nat}
    (h : firstUnescapedQuote json i = some e) :
    i ≤ e ∧ e < json.length ∧ json.getD e 0 = 34 :=
  firstUnescapedQuote_some_aux json (json.length - i) i e (Nat.le_refl _) h

theorem Inv_set_pos (p : Parser) (x : Nat) : Inv { p with pos := x } ↔ Inv p :=
  Iff.rfl

theorem parseStringLoop_none (json : List Nat) (tok : Token) :
    ∀ fuel (p : Parser), json.length - p.pos < fuel →
      firstUnescapedQuote json p.pos = none →
      parseStringLoop json tok fuel p = .error .unclosedString := by
  intro fuel
  induction fuel with
  | zero => intro p hf hq; omega
  | succ f ih =>
    intro p hf hq
    rw [firstUnescapedQuote] at hq
    rw [parseStringLoop]
    by_cases hpos : p.pos < json.length
    · rw [dif_pos hpos] at hq
      rw [if_pos hpos]
      by_cases h34 : json.getD p.pos 0 = 34
      · rw [if_pos h34] at hq; cases hq
      · rw [if_neg h34] at hq
        rw [if_neg h34]
        by_cases hesc : json.getD p.pos 0 = 92 ∧ p.pos + 1 < json.length
        · rw [if_pos hesc] at hq
          rw [if_pos hesc]
          exact ih { p with pos := p.pos + 2 }
            (by show json.length - (p.pos + 2) < f; omega) hq
        · rw [if_neg hesc] at hq
          rw [if_neg hesc]
          exact ih { p with pos := p.pos + 1 }
            (by show json.length - (p.pos + 1) < f; omega) hq
    · rw [if_neg hpos]

theorem parseStringLoop_some (json : List Nat) (tok : Token) :
    ∀ fuel (p : Parser) (e : Nat), json.length - p.pos < fuel →
      firstUnescapedQuote json p.pos = some e →
      (∀ er, p.allocToken { tok with endPos := (e : Int) } = .error er →
        parseStringLoop json tok fuel p = .error er) ∧
      (∀ p1, p.allocToken { tok with endPos := (e : Int) } = .ok p1 →
        parseStringLoop json tok fuel p = .ok { p1 with pos := e + 1 }) := by
  intro fuel
  induction fuel with
  | zero => intro p e hf hq; omega
  | succ f ih =>
    intro p e hf hq
    rw [firstUnescapedQuote] at hq
    rw [parseStringLoop]
    by_cases hpos : p.pos < json.length
    · rw [dif_pos hpos] at hq
      rw [if_pos hpos]
      by_cases h34 : json.getD p.pos 0 = 34
      · rw [if_pos h34] at hq
        cases hq
        rw [if_pos h34]
        constructor
        · intro er her
          rw [her]
        · intro p1 hp1
          rw [hp1]
          obtain ⟨-, hpp, -, -, -, -⟩ := allocToken_ok_spec hp1
          show Except.ok { p1 with pos := p1.pos + 1 } =
            Except.ok { p1 with pos := p.pos + 1 }
          rw [hpp]
      · rw [if_neg h34] at hq
        rw [if_neg h34]
        by_cases hesc : json.getD p.pos 0 = 92 ∧ p.pos + 1 < json.length
        · rw [if_pos hesc] at hq
          rw [if_pos hesc]
          have ih2 := ih { p with pos := p.pos + 2 } e
            (by show json.length - (p.pos + 2) < f; omega) hq
          constructor
          · intro er her
            apply ih2.1 er
            rw [allocToken_set_pos, her]
          · intro p1 hp1
            exact ih2.2 { p1 with pos := p.pos + 2 }
              (by rw [allocToken_set_pos, hp1])
        · rw [if_neg hesc] at hq
          rw [if_neg hesc]
          have ih2 := ih { p with pos := p.pos + 1 } e
            (by show json.length - (p.pos + 1) < f; omega) hq
          constructor
          · intro er her
            apply ih2.1 er
            rw [allocToken_set_pos, her]
          · intro p1 hp1
            exact ih2.2 { p1 with pos := p.pos + 1 }
              (by rw [allocToken_set_pos, hp1])
    · rw [dif_neg hpos] at hq; cases hq

theorem parseString_of_none {p : Parser} {json : List Nat}
    (hq : firstUnescapedQuote json (p.pos + 1) = none) :
    p.parseString json = .error .unclosedString :=
  parseStringLoop_none json
    { type := .string, startPos := ((p.pos + 1 : Nat) : Int), endPos := -1, size := 0,
      parentIdx := p.toksuper }
    (json.length + 1) { p with pos := p.pos + 1 }
    (by show json.length - (p.pos + 1) < json.length + 1; omega) hq

theorem parseString_of_some {p : Parser} {json : List Nat} {e : Nat}
    (hq : firstUnescapedQuote json (p.pos + 1) = some e) :
    (∀ er, p.allocToken (strTok p e) = .error er →
      p.parseString json = .error er) ∧
    (∀ p1, p.allocToken (strTok p e) = .ok p1 →
      p.parseString json = .ok { p1 with pos := e + 1 }) := by
  have h := parseStringLoop_some json
    { type := .string, startPos := ((p.pos + 1 : Nat) : Int), endPos := -1, size := 0,
      parentIdx := p.toksuper }
    (json.length + 1) { p with pos := p.pos + 1 } e
    (by show json.length - (p.pos + 1) < json.length + 1; omega) hq
  have hteq : strTok p e =
      { ({ type := .string, startPos := ((p.pos + 1 : Nat) : Int), endPos := -1,
           size := 0, parentIdx := p.toksuper } : Token) with
        endPos := (e : Int) } := rfl
  constructor
  · intro er her
    rw [hteq] at her
    apply h.1 er
    rw [allocToken_set_pos, her]
  · intro p1 hp1
    rw [hteq] at hp1
    exact h.2 { p1 with pos := p.pos + 1 } (by rw [allocToken_set_pos, hp1])

theorem parseString_ok_spec {p : Parser} {json : List Nat} {q : Parser}
    (h : p.parseString json = .ok q) :
    ∃ e, firstUnescapedQuote json (p.pos + 1) = some e ∧
      q.toknext = p.toknext + 1 ∧ q.toksuper = p.toksuper ∧
      q.tokens.length = p.tokens.length ∧ q.pos = e + 1 ∧ p.pos < q.pos ∧
      p.toknext < p.tokens.length := by
  cases hq : firstUnescapedQuote json (p.pos + 1) with
  | none => rw [parseString_of_none hq] at h; simp at h
  | some e =>
    obtain ⟨herr, hok⟩ := parseString_of_some hq
    cases halloc : p.allocToken (strTok p e) with
    | error er => rw [herr er halloc] at h; simp at h
    | ok p1 =>
      rw [hok p1 halloc] at h
      simp only [Except.ok.injEq] at h
      subst h
      obtain ⟨hlt, hpp, hsup, htn, hlen, -⟩ := allocToken_ok_spec halloc
      have he := firstUnescapedQuote_some hq
      exact ⟨e, rfl, htn, hsup, hlen, rfl, by show p.pos < e + 1; omega, hlt⟩

theorem parseString_err {p : Parser} {json : List Nat} {er : Err}
    (h : p.parseString json = .error er) :
    er = .unclosedString ∨ er = .overflow := by
  cases hq : firstUnescapedQuote json (p.pos + 1) with
  | none =>
    rw [parseString_of_none hq] at h
    simp only [Except.error.injEq] at h
    exact Or.inl h.symm
  | some e =>
    obtain ⟨herr, hok⟩ := parseString_of_some hq
    cases halloc : p.allocToken (strTok p e) with
    | error er' =>
      rw [herr er' halloc] at h
      simp only [Except.error.injEq] at h
      exact Or.inr (h ▸ allocToken_err halloc)
    | ok p1 => rw [hok p1 halloc] at h; simp at h

theorem parseString_inv {p : Parser} {json : List Nat} {q : Parser}
    (hInv : Inv p) (h : p.parseString json = .ok q) : Inv q := by
  cases hq : firstUnescapedQuote json (p.pos + 1) with
  | none => rw [parseString_of_none hq] at h; simp at h
  | some e =>
    obtain ⟨herr, hok⟩ := parseString_of_some hq
    cases halloc : p.allocToken (strTok p e) with
    | error er => rw [herr er halloc] at h; simp at h
    | ok p1 =>
      rw [hok p1 halloc] at h
      simp only [Except.ok.injEq] at h
      subst h
      exact (Inv_set_pos p1 (e + 1)).mpr (allocToken_inv hInv halloc rfl rfl)

theorem parseString_rel {p₁ p₂ : Parser} {json : List Nat}
    (hrel : StateRel p₁ p₂) (hsup : SupOk p₁) :
    (∀ q₁, p₁.parseString json = .ok q₁ →
      (p₂.toknext < p₂.tokens.length →
        ∃ q₂, p₂.parseString json = .ok q₂ ∧ StateRel q₁ q₂ ∧
          q₂.tokens.length = p₂.tokens.length) ∧
      (p₂.tokens.length ≤ p₂.toknext →
        p₂.parseString json = .error .overflow)) ∧
    (∀ er, p₁.parseString json = .error er → er ≠ .overflow →
      p₂.parseString json = .error er) := by
  obtain ⟨hpos, htn, hsupe, htok⟩ := hrel
  cases hq : firstUnescapedQuote json (p₁.pos + 1) with
  | none =>
    have h₁ := @parseString_of_none p₁ json hq
    have h₂ := @parseString_of_none p₂ json (by rw [← hpos]; exact hq)
    constructor
    · intro q₁ hok; rw [h₁] at hok; simp at hok
    · intro er herr hne
      rw [h₁] at herr
      simp only [Except.error.injEq] at herr
      subst herr
      exact h₂
  | some e =>
    obtain ⟨herr₁, hok₁⟩ := @parseString_of_some p₁ json e hq
    obtain ⟨herr₂, hok₂⟩ := @parseString_of_some p₂ json e
      (show firstUnescapedQuote json (p₂.pos + 1) = some e by rw [← hpos]; exact hq)
    have hteq : strTok p₂ e = strTok p₁ e := by
      unfold strTok; rw [hpos, hsupe]
    constructor
    · intro q₁ hok
      cases halloc₁ : p₁.allocToken (strTok p₁ e) with
      | error er => rw [herr₁ er halloc₁] at hok; simp at hok
      | ok pp₁ =>
        rw [hok₁ pp₁ halloc₁] at hok
        simp only [Except.ok.injEq] at hok
        subst hok
        have harel := allocToken_rel ⟨hpos, htn, hsupe, htok⟩ hsup halloc₁
        constructor
        · intro hlt
          obtain ⟨pp₂, halloc₂, hrel', hlen'⟩ := harel.1 hlt
          obtain ⟨a, b, c, d⟩ := hrel'
          refine ⟨{ pp₂ with pos := e + 1 }, ?_, ⟨rfl, b, c, d⟩, hlen'⟩
          exact hok₂ pp₂ (by rw [hteq]; exact halloc₂)
        · intro hge
          exact herr₂ .overflow (by rw [hteq]; exact harel.2 hge)
    · intro er herr hne
      cases halloc₁ : p₁.allocToken (strTok p₁ e) with
      | error er' =>
        have he' : er' = .overflow := allocToken_err halloc₁
        rw [herr₁ er' halloc₁] at herr
        simp only [Except.error.injEq] at herr
        subst herr
        exact absurd he' hne
      | ok pp₁ => rw [hok₁ pp₁ halloc₁] at herr; simp at herr

theorem parsePrimitive_char (p : Parser) (json : List Nat) :
    p.parsePrimitive json =
      if ((parsePrimLoop json (json.length + 1) p).pos : Int) = (p.pos : Int)
      then .error .emptyPrimitive
      else (parsePrimLoop json (json.length + 1) p).allocToken
        (primTok p (parsePrimLoop json (json.length + 1) p).pos) := rfl

theorem parsePrimitive_err {p : Parser} {json : List Nat} {er : Err}
    (h : p.parsePrimitive json = .error er) :
    er = .emptyPrimitive ∨ er = .overflow := by
  rw [parsePrimitive_char] at h
  by_cases hc : ((parsePrimLoop json (json.length + 1) p).pos : Int) =
      (p.pos : Int)
  · rw [if_pos hc] at h
    simp only [Except.error.injEq] at h
    exact Or.inl h.symm
  · rw [if_neg hc] at h
    exact Or.inr (allocToken_err h)

/-- Entered on a non-delimiter byte, the primitive sub-scanner cannot
report an empty primitive: the only error left is overflow. -/
theorem parsePrimitive_err_nondelim {p : Parser} {json : List Nat} {er : Err}
    (hpos : p.pos < json.length)
    (hc : ¬ (json.getD p.pos 0 = 32 ∨ json.getD p.pos 0 = 9 ∨
      json.getD p.pos 0 = 10 ∨ json.getD p.pos 0 = 13 ∨
      json.getD p.pos 0 = 44 ∨ json.getD p.pos 0 = 93 ∨
      json.getD p.pos 0 = 125))
    (h : p.parsePrimitive json = .error er) : er = .overflow := by
  have hadv := parsePrimLoop_advance json json.length p hpos hc
  rw [parsePrimitive_char] at h
  rw [if_neg (by omega)] at h
  exact allocToken_err h

theorem parsePrimitive_ok_spec {p : Parser} {json : List Nat} {q : Parser}
    (h : p.parsePrimitive json = .ok q) :
    q.toknext = p.toknext + 1 ∧ q.toksuper = p.toksuper ∧
    q.tokens.length = p.tokens.length ∧ p.pos < q.pos ∧
    p.toknext < p.tokens.length := by
  rw [parsePrimitive_char] at h
  by_cases hc : ((parsePrimLoop json (json.length + 1) p).pos : Int) =
      (p.pos : Int)
  · rw [if_pos hc] at h; simp at h
  · rw [if_neg hc] at h
    obtain ⟨hlt, hpp, hsup, htn, hlen, -⟩ := allocToken_ok_spec h
    have hsh := parsePrimLoop_shape json (json.length + 1) p
    have hmono := parsePrimLoop_mono json (json.length + 1) p
    have htk : (parsePrimLoop json (json.length + 1) p).toknext = p.toknext := by
      rw [hsh]
    have hts : (parsePrimLoop json (json.length + 1) p).toksuper = p.toksuper := by
      rw [hsh]
    have htl : (parsePrimLoop json (json.length + 1) p).tokens = p.tokens := by
      rw [hsh]
    rw [htk] at htn
    rw [hts] at hsup
    rw [htl] at hlen
    rw [htk, htl] at hlt
    exact ⟨htn, hsup, hlen, by omega, hlt⟩

theorem parsePrimitive_inv {p : Parser} {json : List Nat} {q : Parser}
    (hInv : Inv p) (h : p.parsePrimitive json = .ok q) : Inv q := by
  rw [parsePrimitive_char] at h
  by_cases hc : ((parsePrimLoop json (json.length + 1) p).pos : Int) =
      (p.pos : Int)
  · rw [if_pos hc] at h; simp at h
  · rw [if_neg hc] at h
    have hsh := parsePrimLoop_shape json (json.length + 1) p
    refine allocToken_inv ?_ h ?_ rfl
    · rw [hsh]
      exact (Inv_set_pos p _).mpr hInv
    · rw [hsh]
      rfl

theorem parsePrimitive_rel {p₁ p₂ : Parser} {json : List Nat}
    (hrel : StateRel p₁ p₂) (hsup : SupOk p₁) :
    (∀ q₁, p₁.parsePrimitive json = .ok q₁ →
      (p₂.toknext < p₂.tokens.length →
        ∃ q₂, p₂.parsePrimitive json = .ok q₂ ∧ StateRel q₁ q₂ ∧
          q₂.tokens.length = p₂.tokens.length) ∧
      (p₂.tokens.length ≤ p₂.toknext →
        p₂.parsePrimitive json = .error .overflow)) ∧
    (∀ er, p₁.parsePrimitive json = .error er → er ≠ .overflow →
      p₂.parsePrimitive json = .error er) := by
  obtain ⟨hpos, htn, hsupe, htok⟩ := hrel
  have hN : (parsePrimLoop json (json.length + 1) p₂).pos =
      (parsePrimLoop json (json.length + 1) p₁).pos :=
    parsePrimLoop_pos_congr json (json.length + 1) p₂ p₁ hpos.symm
  have hsh₁ := parsePrimLoop_shape json (json.length + 1) p₁
  have hsh₂ := parsePrimLoop_shape json (json.length + 1) p₂
  have htokeq : primTok p₂ (parsePrimLoop json (json.length + 1) p₂).pos =
      primTok p₁ (parsePrimLoop json (json.length + 1) p₁).pos := by
    unfold primTok
    rw [hN, hpos, hsupe]
  by_cases hc : ((parsePrimLoop json (json.length + 1) p₁).pos : Int) =
      (p₁.pos : Int)
  · have hc₂ : ((parsePrimLoop json (json.length + 1) p₂).pos : Int) =
        (p₂.pos : Int) := by
      rw [hN, ← hpos]; exact hc
    constructor
    · intro q₁ hok
      rw [parsePrimitive_char, if_pos hc] at hok; simp at hok
    · intro er herr hne
      rw [parsePrimitive_char, if_pos hc] at herr
      simp only [Except.error.injEq] at herr
      subst herr
      rw [parsePrimitive_char, if_pos hc₂]
  · have hc₂ : ¬ ((parsePrimLoop json (json.length + 1) p₂).pos : Int) =
        (p₂.pos : Int) := by
      rw [hN, ← hpos]; exact hc
    have hrel' : StateRel (parsePrimLoop json (json.length + 1) p₁)
        (parsePrimLoop json (json.length + 1) p₂) := by
      rw [hsh₁, hsh₂]
      exact ⟨hN.symm, htn, hsupe, htok⟩
    have hsup' : SupOk (parsePrimLoop json (json.length + 1) p₁) := by
      rw [hsh₁]; exact hsup
    constructor
    · intro q₁ hok
      rw [parsePrimitive_char, if_neg hc] at hok
      have harel := allocToken_rel hrel' hsup' hok
      constructor
      · intro hlt
        have hlt' : (parsePrimLoop json (json.length + 1) p₂).toknext <
            (parsePrimLoop json (json.length + 1) p₂).tokens.length := by
          rw [hsh₂]; exact hlt
        obtain ⟨q₂, halloc₂, hrelq, hlenq⟩ := harel.1 hlt'
        refine ⟨q₂, ?_, hrelq, ?_⟩
        · rw [parsePrimitive_char, if_neg hc₂, htokeq]
          exact halloc₂
        · rw [hlenq, hsh₂]
      · intro hge
        have hge' : (parsePrimLoop json (json.length + 1) p₂).tokens.length ≤
            (parsePrimLoop json (json.length + 1) p₂).toknext := by
          rw [hsh₂]; exact hge
        rw [parsePrimitive_char, if_neg hc₂, htokeq]
        exact harel.2 hge'
    · intro er herr hne
      rw [parsePrimitive_char, if_neg hc] at herr
      exact absurd (allocToken_err herr) hne

end SubScanners

section MainLoop

/-- The used-slot counter never decreases across the dispatch loop. -/
theorem parseLoop_mono (json : List Nat) :
    ∀ fuel (p q : Parser), parseLoop json fuel p = .ok q →
      p.toknext ≤ q.toknext := by
  intro fuel
  induction fuel with
  | zero => intro p q h; rw [parseLoop] at h; simp at h
  | succ f ih =>
    intro p q h
    rw [parseLoop] at h
    by_cases hpos : p.pos < json.length
    case neg =>
      rw [if_neg hpos] at h
      simp only [Except.ok.injEq] at h
      subst h
      exact Nat.le_refl _
    rw [if_pos hpos] at h
    by_cases hbr : json.getD p.pos 0 = 123 ∨ json.getD p.pos 0 = 91
    · rw [if_pos hbr] at h
      cases halloc : p.allocToken
          { type := if json.getD p.pos 0 = 123 then TokenType.object
              else TokenType.array,
            startPos := (p.pos : Int), endPos := -1, size := 0,
            parentIdx := p.toksuper } with
      | error e => rw [halloc] at h; simp at h
      | ok p1 =>
        rw [halloc] at h
        have h2 : p1.toknext ≤ q.toknext :=
          ih { p1 with toksuper := (p1.toknext : Int) - 1, pos := p1.pos + 1 } q h
        obtain ⟨-, -, -, htn, -, -⟩ := allocToken_ok_spec halloc
        omega
    · rw [if_neg hbr] at h
      by_cases hcl : json.getD p.pos 0 = 125 ∨ json.getD p.pos 0 = 93
      · rw [if_pos hcl] at h
        by_cases hsn : p.toksuper ≠ -1
        · rw [if_pos hsn] at h
          exact ih
            { p with
              tokens := p.tokens.set p.toksuper.toNat
                { p.tokens.getD p.toksuper.toNat default with
                  endPos := ((p.pos + 1 : Nat) : Int) },
              toksuper := (p.tokens.getD p.toksuper.toNat default).parentIdx,
              pos := p.pos + 1 } q h
        · rw [if_neg hsn] at h
          exact ih { p with pos := p.pos + 1 } q h
      · rw [if_neg hcl] at h
        by_cases hqt : json.getD p.pos 0 = 34
        · rw [if_pos hqt] at h
          cases hstr : p.parseString json with
          | error e => rw [hstr] at h; simp at h
          | ok p1 =>
            rw [hstr] at h
            have h2 : p1.toknext ≤ q.toknext := ih p1 q h
            obtain ⟨-, -, htn, -, -, -, -, -⟩ := parseString_ok_spec hstr
            omega
        · rw [if_neg hqt] at h
          by_cases hws : json.getD p.pos 0 = 9 ∨ json.getD p.pos 0 = 13 ∨
              json.getD p.pos 0 = 10 ∨ json.getD p.pos 0 = 32
          · rw [if_pos hws] at h
            exact ih { p with pos := p.pos + 1 } q h
          · rw [if_neg hws] at h
            by_cases hco : json.getD p.pos 0 = 58
            · rw [if_pos hco] at h
              exact ih { p with pos := p.pos + 1 } q h
            · rw [if_neg hco] at h
              by_cases hcm : json.getD p.pos 0 = 44
              · rw [if_pos hcm] at h
                by_cases hpop : p.toksuper ≠ -1 ∧
                    (p.tokens.getD p.toksuper.toNat default).type ≠ .array ∧
                    (p.tokens.getD p.toksuper.toNat default).type ≠ .object
                · rw [if_pos hpop] at h
                  exact ih
                    { p with
                      toksuper := (p.tokens.getD p.toksuper.toNat default).parentIdx,
                      pos := p.pos + 1 } q h
                · rw [if_neg hpop] at h
                  exact ih { p with pos := p.pos + 1 } q h
              · rw [if_neg hcm] at h
                cases hprim : p.parsePrimitive json with
                | error e => rw [hprim] at h; simp at h
                | ok p1 =>
                  rw [hprim] at h
                  have h2 : p1.toknext ≤ q.toknext := ih p1 q h
                  obtain ⟨htn, -, -, -, -⟩ := parsePrimitive_ok_spec hprim
                  omega

/-- The invariant transfers along any state change that preserves the
used-slot count, the capacity, and the parent, kind and size data of
every used slot. -/
theorem Inv_components_of_eq {p q : Parser}
    (htn : q.toknext = p.toknext) (hlen : q.tokens.length = p.tokens.length)
    (hpe : ∀ k, k < p.toknext →
      (q.tokens.getD k default).parentIdx = (p.tokens.getD k default).parentIdx ∧
      (q.tokens.getD k default).type = (p.tokens.getD k default).type ∧
      (q.tokens.getD k default).size = (p.tokens.getD k default).size)
    (hsup : q.toksuper = -1 ∨ ∃ m : Nat, m < p.toknext ∧ q.toksuper = (m : Int) ∧
      isContainer ((p.tokens.getD m default).type))
    (hInv : Inv p) : Inv q := by
  obtain ⟨i1, -, i3, i4⟩ := hInv
  refine ⟨by omega, ?_, ?_, ?_⟩
  · rcases hsup with h1 | ⟨m, hm, hmv, hcont⟩
    · exact Or.inl h1
    · refine Or.inr ⟨m, by omega, hmv, ?_⟩
      rw [(hpe m hm).2.1]; exact hcont
  · intro i hi
    rw [htn] at hi
    have hold := i3 i hi
    unfold parentOk at hold ⊢
    rw [(hpe i hi).1]
    rcases hold with h1 | ⟨m, hmi, hmv, hcont⟩
    · exact Or.inl h1
    · refine Or.inr ⟨m, hmi, hmv, ?_⟩
      rw [(hpe m (by omega)).2.1]; exact hcont
  · intro j hj
    rw [htn] at hj
    rw [(hpe j hj).2.2, i4 j hj, htn]
    exact (childCount_congr (fun i hi => (hpe i hi).1) j).symm

/-- Preservation of the invariant by the dispatch loop. -/
theorem parseLoop_inv (json : List Nat) :
    ∀ fuel (p q : Parser), Inv p → parseLoop json fuel p = .ok q → Inv q := by
  intro fuel
  induction fuel with
  | zero => intro p q hInv h; rw [parseLoop] at h; simp at h
  | succ f ih =>
    intro p q hInv h
    rw [parseLoop] at h
    by_cases hpos : p.pos < json.length
    case neg =>
      rw [if_neg hpos] at h
      simp only [Except.ok.injEq] at h
      subst h
      exact hInv
    rw [if_pos hpos] at h
    by_cases hbr : json.getD p.pos 0 = 123 ∨ json.getD p.pos 0 = 91
    · rw [if_pos hbr] at h
      cases halloc : p.allocToken
          { type := if json.getD p.pos 0 = 123 then TokenType.object
              else TokenType.array,
            startPos := (p.pos : Int), endPos := -1, size := 0,
            parentIdx := p.toksuper } with
      | error e => rw [halloc] at h; simp at h
      | ok p1 =>
        rw [halloc] at h
        have hsupP : SupOk p := by
          rcases hInv.2.1 with h1 | ⟨m, hm, hmv, -⟩
          · exact Or.inl h1
          · exact Or.inr ⟨m, hm, hmv⟩
        have hinv1 := allocToken_inv hInv halloc rfl rfl
        obtain ⟨i1, -, i3, i4⟩ := hinv1
        have hnew := allocToken_getD_new halloc hsupP
        obtain ⟨-, -, -, htn, -, -⟩ := allocToken_ok_spec halloc
        refine ih { p1 with toksuper := (p1.toknext : Int) - 1, pos := p1.pos + 1 }
          q ⟨i1, Or.inr ⟨p.toknext, ?_, ?_, ?_⟩, i3, i4⟩ h
        · show p.toknext < p1.toknext
          omega
        · show (p1.toknext : Int) - 1 = (p.toknext : Int)
          omega
        · show isContainer ((p1.tokens.getD p.toknext default).type)
          rw [hnew]
          show isContainer (if json.getD p.pos 0 = 123 then TokenType.object
            else TokenType.array)
          by_cases hc : json.getD p.pos 0 = 123
          · rw [if_pos hc]
            exact Or.inl rfl
          · rw [if_neg hc]
            exact Or.inr rfl
    · rw [if_neg hbr] at h
      by_cases hcl : json.getD p.pos 0 = 125 ∨ json.getD p.pos 0 = 93
      · rw [if_pos hcl] at h
        by_cases hsn : p.toksuper ≠ -1
        · rw [if_pos hsn] at h
          obtain ⟨i1, i2, i3, i4⟩ := hInv
          rcases i2 with h1 | ⟨m, hm, hmv, hcont⟩
          · exact absurd h1 hsn
          have hmt : p.toksuper.toNat = m := by omega
          have hmlen : m < p.tokens.length := by omega
          have hpe : ∀ k, k < p.toknext →
              (((p.tokens.set p.toksuper.toNat
                { p.tokens.getD p.toksuper.toNat default with
                  endPos := ((p.pos + 1 : Nat) : Int) }).getD k default).parentIdx =
                (p.tokens.getD k default).parentIdx) ∧
              (((p.tokens.set p.toksuper.toNat
                { p.tokens.getD p.toksuper.toNat default with
                  endPos := ((p.pos + 1 : Nat) : Int) }).getD k default).type =
                (p.tokens.getD k default).type) ∧
              (((p.tokens.set p.toksuper.toNat
                { p.tokens.getD p.toksuper.toNat default with
                  endPos := ((p.pos + 1 : Nat) : Int) }).getD k default).size =
                (p.tokens.getD k default).size) := by
            intro k hk
            rw [hmt]
            by_cases hkm : k = m
            · subst hkm
              rw [getD_set_self _ hmlen]
              exact ⟨rfl, rfl, rfl⟩
            · rw [getD_set_ne _ (fun e => hkm e.symm)]
              exact ⟨rfl, rfl, rfl⟩
          have hsup2 : (p.tokens.getD m default).parentIdx = -1 ∨
              ∃ m2 : Nat, m2 < p.toknext ∧
                (p.tokens.getD m default).parentIdx = (m2 : Int) ∧
                isContainer ((p.tokens.getD m2 default).type) := by
            have hpm := i3 m hm
            unfold parentOk at hpm
            rcases hpm with h1 | ⟨m2, hm2, hmv2, hcont2⟩
            · exact Or.inl h1
            · exact Or.inr ⟨m2, by omega, hmv2, hcont2⟩
          refine ih _ q
            (Inv_components_of_eq ?_ ?_ ?_ ?_
              ⟨i1, Or.inr ⟨m, hm, hmv, hcont⟩, i3, i4⟩) h
          · rfl
          · exact List.length_set _ _ _
          · exact hpe
          show (p.tokens.getD p.toksuper.toNat default).parentIdx = -1 ∨
            ∃ m2 : Nat, m2 < p.toknext ∧
              (p.tokens.getD p.toksuper.toNat default).parentIdx = (m2 : Int) ∧
              isContainer ((p.tokens.getD m2 default).type)
          rw [hmt]
          exact hsup2
        · rw [if_neg hsn] at h
          exact ih { p with pos := p.pos + 1 } q ((Inv_set_pos p _).mpr hInv) h
      · rw [if_neg hcl] at h
        by_cases hqt : json.getD p.pos 0 = 34
        · rw [if_pos hqt] at h
          cases hstr : p.parseString json with
          | error e => rw [hstr] at h; simp at h
          | ok p1 =>
            rw [hstr] at h
            exact ih p1 q (parseString_inv hInv hstr) h
        · rw [if_neg hqt] at h
          by_cases hws : json.getD p.pos 0 = 9 ∨ json.getD p.pos 0 = 13 ∨
              json.getD p.pos 0 = 10 ∨ json.getD p.pos 0 = 32
          · rw [if_pos hws] at h
            exact ih { p with pos := p.pos + 1 } q ((Inv_set_pos p _).mpr hInv) h
          · rw [if_neg hws] at h
            by_cases hco : json.getD p.pos 0 = 58
            · rw [if_pos hco] at h
              exact ih { p with pos := p.pos + 1 } q ((Inv_set_pos p _).mpr hInv) h
            · rw [if_neg hco] at h
              by_cases hcm : json.getD p.pos 0 = 44
              · rw [if_pos hcm] at h
                by_cases hpop : p.toksuper ≠ -1 ∧
                    (p.tokens.getD p.toksuper.toNat default).type ≠ .array ∧
                    (p.tokens.getD p.toksuper.toNat default).type ≠ .object
                · exfalso
                  obtain ⟨hs, hna, hno⟩ := hpop
                  rcases hInv.2.1 with h1 | ⟨m, hm, hmv, hcont⟩
                  · exact hs h1
                  · have hmt : p.toksuper.toNat = m := by omega
                    rw [hmt] at hna hno
                    rcases hcont with hobj | harr
                    · exact hno hobj
                    · exact hna harr
                · rw [if_neg hpop] at h
                  exact ih { p with pos := p.pos + 1 } q
                    ((Inv_set_pos p _).mpr hInv) h
              · rw [if_neg hcm] at h
                cases hprim : p.parsePrimitive json with
                | error e => rw [hprim] at h; simp at h
                | ok p1 =>
                  rw [hprim] at h
                  exact ih p1 q (parsePrimitive_inv hInv hprim) h

/-- The dispatch loop never reports an empty primitive: every call of the
primitive sub-scanner starts on a byte no other case accepted, which is
never one of the delimiter bytes it stops on. -/
theorem parseLoop_err (json : List Nat) :
    ∀ fuel (p : Parser) (e : Err), parseLoop json fuel p = .error e →
      e ≠ .emptyPrimitive := by
  intro fuel
  induction fuel with
  | zero =>
    intro p e h
    rw [parseLoop] at h
    simp only [Except.error.injEq] at h
    subst h
    decide
  | succ f ih =>
    intro p e h
    rw [parseLoop] at h
    by_cases hpos : p.pos < json.length
    case neg => rw [if_neg hpos] at h; simp at h
    rw [if_pos hpos] at h
    by_cases hbr : json.getD p.pos 0 = 123 ∨ json.getD p.pos 0 = 91
    · rw [if_pos hbr] at h
      cases halloc : p.allocToken
          { type := if json.getD p.pos 0 = 123 then TokenType.object
              else TokenType.array,
            startPos := (p.pos : Int), endPos := -1, size := 0,
            parentIdx := p.toksuper } with
      | error e' =>
        rw [halloc] at h
        have h2 : (Except.error e' : Except Err Parser) = .error e := h
        simp only [Except.error.injEq] at h2
        subst h2
        rw [allocToken_err halloc]
        decide
      | ok p1 =>
        rw [halloc] at h
        exact ih _ _ h
    · rw [if_neg hbr] at h
      by_cases hcl : json.getD p.pos 0 = 125 ∨ json.getD p.pos 0 = 93
      · rw [if_pos hcl] at h
        by_cases hsn : p.toksuper ≠ -1
        · rw [if_pos hsn] at h; exact ih _ _ h
        · rw [if_neg hsn] at h; exact ih _ _ h
      · rw [if_neg hcl] at h
        by_cases hqt : json.getD p.pos 0 = 34
        · rw [if_pos hqt] at h
          cases hstr : p.parseString json with
          | error e' =>
            rw [hstr] at h
            have h2 : (Except.error e' : Except Err Parser) = .error e := h
            simp only [Except.error.injEq] at h2
            subst h2
            rcases parseString_err hstr with h3 | h3 <;> (rw [h3]; decide)
          | ok p1 =>
            rw [hstr] at h
            exact ih _ _ h
        · rw [if_neg hqt] at h
          by_cases hws : json.getD p.pos 0 = 9 ∨ json.getD p.pos 0 = 13 ∨
              json.getD p.pos 0 = 10 ∨ json.getD p.pos 0 = 32
          · rw [if_pos hws] at h; exact ih _ _ h
          · rw [if_neg hws] at h
            by_cases hco : json.getD p.pos 0 = 58
            · rw [if_pos hco] at h; exact ih _ _ h
            · rw [if_neg hco] at h
              by_cases hcm : json.getD p.pos 0 = 44
              · rw [if_pos hcm] at h
                by_cases hpop : p.toksuper ≠ -1 ∧
                    (p.tokens.getD p.toksuper.toNat default).type ≠ .array ∧
                    (p.tokens.getD p.toksuper.toNat default).type ≠ .object
                · rw [if_pos hpop] at h; exact ih _ _ h
                · rw [if_neg hpop] at h; exact ih _ _ h
              · rw [if_neg hcm] at h
                cases hprim : p.parsePrimitive json with
                | error e' =>
                  rw [hprim] at h
                  have h2 : (Except.error e' : Except Err Parser) = .error e := h
                  simp only [Except.error.injEq] at h2
                  subst h2
                  have hnd : ¬ (json.getD p.pos 0 = 32 ∨ json.getD p.pos 0 = 9 ∨
                      json.getD p.pos 0 = 10 ∨ json.getD p.pos 0 = 13 ∨
                      json.getD p.pos 0 = 44 ∨ json.getD p.pos 0 = 93 ∨
                      json.getD p.pos 0 = 125) := by
                    simp only [not_or] at hcl hws ⊢
                    exact ⟨hws.2.2.2, hws.1, hws.2.2.1, hws.2.1, hcm, hcl.2,
                      hcl.1⟩
                  rw [parsePrimitive_err_nondelim hpos hnd hprim]
                  decide
                | ok p1 =>
                  rw [hprim] at h
                  exact ih _ _ h

theorem RelOut_step {json : List Nat} {f len₁ : Nat} {p₂ p₂' : Parser}
    {r : Except Err Parser}
    (hstep : parseLoop json (f + 1) p₂ = parseLoop json f p₂')
    (hlen2 : p₂'.tokens.length = p₂.tokens.length)
    (hout : RelOut json f len₁ p₂' r) :
    RelOut json (f + 1) len₁ p₂ r := by
  cases r with
  | ok q₁ =>
    obtain ⟨ha, hb⟩ := hout
    constructor
    · intro hqle
      obtain ⟨q₂, h1, h2, h3⟩ := ha (by omega)
      exact ⟨q₂, by rw [hstep]; exact h1, h2, by omega⟩
    · intro hlt2
      rw [hstep]
      exact hb (by omega)
  | error e =>
    intro hne hlen
    rw [hstep]
    exact hout hne (by omega)

theorem RelOut_overflow {json : List Nat} {f len₁ : Nat} {p₂ p₁' : Parser}
    {r : Except Err Parser}
    (hrun : parseLoop json f p₁' = r)
    (hov : parseLoop json (f + 1) p₂ = .error .overflow)
    (htk1 : p₁'.toknext = p₂.toknext + 1)
    (hlt1 : p₂.toknext < len₁)
    (hge : p₂.tokens.length ≤ p₂.toknext) :
    RelOut json (f + 1) len₁ p₂ r := by
  cases r with
  | ok q₁ =>
    have hmono := parseLoop_mono json f p₁' q₁ hrun
    constructor
    · intro hqle
      exfalso
      omega
    · intro hlt2
      exact hov
  | error e =>
    intro hne hlen
    exfalso
    omega

/-- Capacity transfer: a second scanner that starts in the same state
except for the unused tail of its token array mirrors the first scanner
step by step; it succeeds with the same observable state when its
capacity accommodates the final token count, fails with overflow when it
does not, and reports the same non-overflow error. -/
theorem parseLoop_rel (json : List Nat) :
    ∀ fuel (p₁ p₂ : Parser) (r : Except Err Parser),
      parseLoop json fuel p₁ = r → StateRel p₁ p₂ → Inv p₁ →
      p₂.toknext ≤ p₂.tokens.length →
      RelOut json fuel p₁.tokens.length p₂ r := by
  intro fuel
  induction fuel with
  | zero =>
    intro p₁ p₂ r hrun hrel hInv hcap₂
    rw [parseLoop] at hrun
    subst hrun
    intro hne hlen
    rw [parseLoop]
  | succ f ih =>
    intro p₁ p₂ r hrun hrel hInv hcap₂
    obtain ⟨hpose, htn, hsupe, htok⟩ := hrel
    have hsupP : SupOk p₁ := by
      rcases hInv.2.1 with h1 | ⟨m, hm, hmv, -⟩
      · exact Or.inl h1
      · exact Or.inr ⟨m, hm, hmv⟩
    have hcap₁ : p₁.toknext ≤ p₁.tokens.length := hInv.1
    rw [parseLoop] at hrun
    by_cases hpos : p₁.pos < json.length
    case neg =>
      rw [if_neg hpos] at hrun
      subst hrun
      constructor
      · intro hqle
        refine ⟨p₂, ?_, ⟨hpose, htn, hsupe, htok⟩, rfl⟩
        rw [parseLoop, if_neg (by rw [← hpose]; exact hpos)]
      · intro hlt2
        exfalso
        omega
    rw [if_pos hpos] at hrun
    have hpos₂ : p₂.pos < json.length := by rw [← hpose]; exact hpos
    by_cases hbr : json.getD p₁.pos 0 = 123 ∨ json.getD p₁.pos 0 = 91
    · rw [if_pos hbr] at hrun
      have hbr₂ : json.getD p₂.pos 0 = 123 ∨ json.getD p₂.pos 0 = 91 := by
        rw [← hpose]; exact hbr
      have htkeq :
          ({ type := if json.getD p₂.pos 0 = 123 then TokenType.object else TokenType.array,
             startPos := (p₂.pos : Int), endPos := -1, size := 0,
             parentIdx := p₂.toksuper } : Token) =
          ({ type := if json.getD p₁.pos 0 = 123 then TokenType.object else TokenType.array,
             startPos := (p₁.pos : Int), endPos := -1, size := 0,
             parentIdx := p₁.toksuper } : Token) := by
        rw [hpose, hsupe]
      cases halloc₁ : p₁.allocToken
          { type := if json.getD p₁.pos 0 = 123 then TokenType.object
              else TokenType.array,
            startPos := (p₁.pos : Int), endPos := -1, size := 0,
            parentIdx := p₁.toksuper } with
      | error e' =>
        rw [halloc₁] at hrun
        have h2 : (Except.error e' : Except Err Parser) = r := hrun
        subst h2
        intro hne hlen
        exact absurd (allocToken_err halloc₁) hne
      | ok pp₁ =>
        rw [halloc₁] at hrun
        have hrun' : parseLoop json f
            { pp₁ with
              toksuper := (pp₁.toknext : Int) - 1,
              pos := pp₁.pos + 1 } = r := hrun
        obtain ⟨hlt₁, hppp, hpps, hppt, hppl, -⟩ := allocToken_ok_spec halloc₁
        have hinv1 := allocToken_inv hInv halloc₁ rfl rfl
        obtain ⟨i1, -, i3, i4⟩ := hinv1
        have hnew := allocToken_getD_new halloc₁ hsupP
        have hInv' : Inv
            { pp₁ with
              toksuper := (pp₁.toknext : Int) - 1,
              pos := pp₁.pos + 1 } := by
          refine ⟨i1, Or.inr ⟨p₁.toknext, ?_, ?_, ?_⟩, i3, i4⟩
          · show p₁.toknext < pp₁.toknext
            omega
          · show (pp₁.toknext : Int) - 1 = (p₁.toknext : Int)
            omega
          · show isContainer ((pp₁.tokens.getD p₁.toknext default).type)
            rw [hnew]
            show isContainer (if json.getD p₁.pos 0 = 123 then TokenType.object
              else TokenType.array)
            by_cases hc : json.getD p₁.pos 0 = 123
            · rw [if_pos hc]; exact Or.inl rfl
            · rw [if_neg hc]; exact Or.inr rfl
        have hlen1' : ({ pp₁ with
            toksuper := (pp₁.toknext : Int) - 1,
            pos := pp₁.pos + 1 } : Parser).tokens.length = p₁.tokens.length :=
          hppl
        have harel := allocToken_rel ⟨hpose, htn, hsupe, htok⟩ hsupP halloc₁
        by_cases htk2 : p₂.toknext < p₂.tokens.length
        · obtain ⟨pp₂, halloc₂, hrelpp, hlenpp⟩ := harel.1 htk2
          obtain ⟨ra, rb, rc, rd⟩ := hrelpp
          obtain ⟨-, -, -, h2t, h2l, -⟩ := allocToken_ok_spec halloc₂
          have hrel' : StateRel
              { pp₁ with
                toksuper := (pp₁.toknext : Int) - 1,
                pos := pp₁.pos + 1 }
              { pp₂ with
                toksuper := (pp₂.toknext : Int) - 1,
                pos := pp₂.pos + 1 } := by
            refine ⟨?_, rb, ?_, rd⟩
            · show pp₁.pos + 1 = pp₂.pos + 1
              omega
            · show (pp₁.toknext : Int) - 1 = (pp₂.toknext : Int) - 1
              omega
          have hcap₂' : ({ pp₂ with
              toksuper := (pp₂.toknext : Int) - 1,
              pos := pp₂.pos + 1 } : Parser).toknext ≤
              ({ pp₂ with
                toksuper := (pp₂.toknext : Int) - 1,
                pos := pp₂.pos + 1 } : Parser).tokens.length := by
            show pp₂.toknext ≤ pp₂.tokens.length
            omega
          have hout := ih _ _ r hrun' hrel' hInv' hcap₂'
          rw [hlen1'] at hout
          apply RelOut_step ?_ ?_ hout
          · rw [parseLoop, if_pos hpos₂, if_pos hbr₂, htkeq, halloc₂]
          · show pp₂.tokens.length = p₂.tokens.length
            exact hlenpp
        · have hge : p₂.tokens.length ≤ p₂.toknext := by omega
          refine RelOut_overflow hrun' ?_ ?_ ?_ hge
          · rw [parseLoop, if_pos hpos₂, if_pos hbr₂, htkeq,
              allocToken_overflow _ hge]
          · show pp₁.toknext = p₂.toknext + 1
            omega
          · show p₂.toknext < p₁.tokens.length
            omega
    · rw [if_neg hbr] at hrun
      have hbr₂ : ¬ (json.getD p₂.pos 0 = 123 ∨ json.getD p₂.pos 0 = 91) := by
        rw [← hpose]; exact hbr
      by_cases hcl : json.getD p₁.pos 0 = 125 ∨ json.getD p₁.pos 0 = 93
      · rw [if_pos hcl] at hrun
        have hcl₂ : json.getD p₂.pos 0 = 125 ∨ json.getD p₂.pos 0 = 93 := by
          rw [← hpose]; exact hcl
        by_cases hsn : p₁.toksuper ≠ -1
        · rw [if_pos hsn] at hrun
          have hsn₂ : p₂.toksuper ≠ -1 := by rw [← hsupe]; exact hsn
          obtain ⟨i1, i2, i3, i4⟩ := hInv
          rcases i2 with hh1 | ⟨m, hm, hmv, hcont⟩
          · exact absurd hh1 hsn
          have hmt₁ : p₁.toksuper.toNat = m := by omega
          have hmt₂ : p₂.toksuper.toNat = m := by
            rw [← hsupe]; omega
          have hmlen₁ : m < p₁.tokens.length := by omega
          have hmlen₂ : m < p₂.tokens.length := by omega
          have hgm : p₂.tokens.getD m default = p₁.tokens.getD m default :=
            (htok m hm).symm
          have hrun' : parseLoop json f
              { p₁ with
                tokens := p₁.tokens.set p₁.toksuper.toNat
                  { p₁.tokens.getD p₁.toksuper.toNat default with
                    endPos := ((p₁.pos + 1 : Nat) : Int) },
                toksuper := (p₁.tokens.getD p₁.toksuper.toNat default).parentIdx,
                pos := p₁.pos + 1 } = r := hrun
          have hpe : ∀ k, k < p₁.toknext →
              (((p₁.tokens.set p₁.toksuper.toNat
                { p₁.tokens.getD p₁.toksuper.toNat default with
                  endPos := ((p₁.pos + 1 : Nat) : Int) }).getD k default).parentIdx =
                (p₁.tokens.getD k default).parentIdx) ∧
              (((p₁.tokens.set p₁.toksuper.toNat
                { p₁.tokens.getD p₁.toksuper.toNat default with
                  endPos := ((p₁.pos + 1 : Nat) : Int) }).getD k default).type =
                (p₁.tokens.getD k default).type) ∧
              (((p₁.tokens.set p₁.toksuper.toNat
                { p₁.tokens.getD p₁.toksuper.toNat default with
                  endPos := ((p₁.pos + 1 : Nat) : Int) }).getD k default).size =
                (p₁.tokens.getD k default).size) := by
            intro k hk
            rw [hmt₁]
            by_cases hkm : k = m
            · subst hkm
              rw [getD_set_self _ hmlen₁]
              exact ⟨rfl, rfl, rfl⟩
            · rw [getD_set_ne _ (fun e => hkm e.symm)]
              exact ⟨rfl, rfl, rfl⟩
          have hsup2 : (p₁.tokens.getD m default).parentIdx = -1 ∨
              ∃ m2 : Nat, m2 < p₁.toknext ∧
                (p₁.tokens.getD m default).parentIdx = (m2 : Int) ∧
                isContainer ((p₁.tokens.getD m2 default).type) := by
            have hpm := i3 m hm
            unfold parentOk at hpm
            rcases hpm with h1 | ⟨m2, hm2, hmv2, hcont2⟩
            · exact Or.inl h1
            · exact Or.inr ⟨m2, by omega, hmv2, hcont2⟩
          have hInv' : Inv
              { p₁ with
                tokens := p₁.tokens.set p₁.toksuper.toNat
                  { p₁.tokens.getD p₁.toksuper.toNat default with
                    endPos := ((p₁.pos + 1 : Nat) : Int) },
                toksuper := (p₁.tokens.getD p₁.toksuper.toNat default).parentIdx,
                pos := p₁.pos + 1 } := by
            refine Inv_components_of_eq ?_ ?_ ?_ ?_
              ⟨i1, Or.inr ⟨m, hm, hmv, hcont⟩, i3, i4⟩
            · rfl
            · exact List.length_set _ _ _
            · exact hpe
            · show (p₁.tokens.getD p₁.toksuper.toNat default).parentIdx = -1 ∨
                ∃ m2 : Nat, m2 < p₁.toknext ∧
                  (p₁.tokens.getD p₁.toksuper.toNat default).parentIdx = (m2 : Int) ∧
                  isContainer ((p₁.tokens.getD m2 default).type)
              rw [hmt₁]
              exact hsup2
          have hrel' : StateRel
              { p₁ with
                tokens := p₁.tokens.set p₁.toksuper.toNat
                  { p₁.tokens.getD p₁.toksuper.toNat default with
                    endPos := ((p₁.pos + 1 : Nat) : Int) },
                toksuper := (p₁.tokens.getD p₁.toksuper.toNat default).parentIdx,
                pos := p₁.pos + 1 }
              { p₂ with
                tokens := p₂.tokens.set p₂.toksuper.toNat
                  { p₂.tokens.getD p₂.toksuper.toNat default with
                    endPos := ((p₂.pos + 1 : Nat) : Int) },
                toksuper := (p₂.tokens.getD p₂.toksuper.toNat default).parentIdx,
                pos := p₂.pos + 1 } := by
            refine ⟨?_, htn, ?_, ?_⟩
            · show p₁.pos + 1 = p₂.pos + 1
              omega
            · show (p₁.tokens.getD p₁.toksuper.toNat default).parentIdx =
                (p₂.tokens.getD p₂.toksuper.toNat default).parentIdx
              rw [hmt₁, hmt₂, hgm]
            · intro k hk
              show (p₁.tokens.set p₁.toksuper.toNat
                  { p₁.tokens.getD p₁.toksuper.toNat default with
                    endPos := ((p₁.pos + 1 : Nat) : Int) }).getD k default =
                (p₂.tokens.set p₂.toksuper.toNat
                  { p₂.tokens.getD p₂.toksuper.toNat default with
                    endPos := ((p₂.pos + 1 : Nat) : Int) }).getD k default
              rw [hmt₁, hmt₂]
              by_cases hkm : k = m
              · subst hkm
                rw [getD_set_self _ hmlen₁, getD_set_self _ hmlen₂, hgm, hpose]
              · rw [getD_set_ne _ (fun e => hkm e.symm),
                  getD_set_ne _ (fun e => hkm e.symm)]
                exact htok k hk
          have hcap₂' : ({ p₂ with
              tokens := p₂.tokens.set p₂.toksuper.toNat
                { p₂.tokens.getD p₂.toksuper.toNat default with
                  endPos := ((p₂.pos + 1 : Nat) : Int) },
              toksuper := (p₂.tokens.getD p₂.toksuper.toNat default).parentIdx,
              pos := p₂.pos + 1 } : Parser).toknext ≤
              ({ p₂ with
                tokens := p₂.tokens.set p₂.toksuper.toNat
                  { p₂.tokens.getD p₂.toksuper.toNat default with
                    endPos := ((p₂.pos + 1 : Nat) : Int) },
                toksuper := (p₂.tokens.getD p₂.toksuper.toNat default).parentIdx,
                pos := p₂.pos + 1 } : Parser).tokens.length := by
            show p₂.toknext ≤ (p₂.tokens.set p₂.toksuper.toNat
              { p₂.tokens.getD p₂.toksuper.toNat default with
                endPos := ((p₂.pos + 1 : Nat) : Int) }).length
            rw [List.length_set]
            exact hcap₂
          have hout := ih _ _ r hrun' hrel' hInv' hcap₂'
          have hlen1' : ({ p₁ with
              tokens := p₁.tokens.set p₁.toksuper.toNat
                { p₁.tokens.getD p₁.toksuper.toNat default with
                  endPos := ((p₁.pos + 1 : Nat) : Int) },
              toksuper := (p₁.tokens.getD p₁.toksuper.toNat default).parentIdx,
              pos := p₁.pos + 1 } : Parser).tokens.length =
              p₁.tokens.length := List.length_set _ _ _
          rw [hlen1'] at hout
          apply RelOut_step ?_ ?_ hout
          · rw [parseLoop, if_pos hpos₂, if_neg hbr₂, if_pos hcl₂,
              if_pos hsn₂]
          · show (p₂.tokens.set p₂.toksuper.toNat
                { p₂.tokens.getD p₂.toksuper.toNat default with
                  endPos := ((p₂.pos + 1 : Nat) : Int) }).length =
              p₂.tokens.length
            exact List.length_set _ _ _
        · rw [if_neg hsn] at hrun
          have hsn₂ : ¬ p₂.toksuper ≠ -1 := by rw [← hsupe]; exact hsn
          have hrun' : parseLoop json f { p₁ with pos := p₁.pos + 1 } = r := hrun
          have hout := ih { p₁ with pos := p₁.pos + 1 } { p₂ with pos := p₂.pos + 1 } r hrun'
            ⟨by show p₁.pos + 1 = p₂.pos + 1; omega, htn, hsupe, htok⟩
            ((Inv_set_pos p₁ _).mpr hInv) hcap₂
          apply RelOut_step ?_ ?_ hout
          · rw [parseLoop, if_pos hpos₂, if_neg hbr₂, if_pos hcl₂,
              if_neg hsn₂]
          · rfl
      · rw [if_neg hcl] at hrun
        have hcl₂ : ¬ (json.getD p₂.pos 0 = 125 ∨ json.getD p₂.pos 0 = 93) := by
          rw [← hpose]; exact hcl
        by_cases hqt : json.getD p₁.pos 0 = 34
        · rw [if_pos hqt] at hrun
          have hqt₂ : json.getD p₂.pos 0 = 34 := by rw [← hpose]; exact hqt
          have hsrel := @parseString_rel p₁ p₂ json ⟨hpose, htn, hsupe, htok⟩ hsupP
          cases hstr₁ : p₁.parseString json with
          | error e' =>
            rw [hstr₁] at hrun
            have h2 : (Except.error e' : Except Err Parser) = r := hrun
            subst h2
            intro hne hlen
            have hstr₂ := hsrel.2 e' hstr₁ hne
            rw [parseLoop, if_pos hpos₂, if_neg hbr₂, if_neg hcl₂,
              if_pos hqt₂, hstr₂]
          | ok pp₁ =>
            rw [hstr₁] at hrun
            have hrun' : parseLoop json f pp₁ = r := hrun
            obtain ⟨e1, -, hstn, -, hslen, -, -, hscap⟩ :=
              parseString_ok_spec hstr₁
            have hInv' : Inv pp₁ := parseString_inv hInv hstr₁
            by_cases htk2 : p₂.toknext < p₂.tokens.length
            · obtain ⟨pp₂, hstr₂, hrelpp, hlenpp⟩ := (hsrel.1 pp₁ hstr₁).1 htk2
              obtain ⟨e2, -, hstn₂, -, hslen₂, -, -, -⟩ :=
                parseString_ok_spec hstr₂
              have hcap₂' : pp₂.toknext ≤ pp₂.tokens.length := by omega
              have hout := ih _ _ r hrun' hrelpp hInv' hcap₂'
              rw [hslen] at hout
              apply RelOut_step ?_ ?_ hout
              · rw [parseLoop, if_pos hpos₂, if_neg hbr₂, if_neg hcl₂,
                  if_pos hqt₂, hstr₂]
              · exact hlenpp
            · have hge : p₂.tokens.length ≤ p₂.toknext := by omega
              refine RelOut_overflow hrun' ?_ ?_ ?_ hge
              · rw [parseLoop, if_pos hpos₂, if_neg hbr₂, if_neg hcl₂,
                  if_pos hqt₂, (hsrel.1 pp₁ hstr₁).2 hge]
              · omega
              · omega
        · rw [if_neg hqt] at hrun
          have hqt₂ : ¬ json.getD p₂.pos 0 = 34 := by rw [← hpose]; exact hqt
          by_cases hws : json.getD p₁.pos 0 = 9 ∨ json.getD p₁.pos 0 = 13 ∨
              json.getD p₁.pos 0 = 10 ∨ json.getD p₁.pos 0 = 32
          · rw [if_pos hws] at hrun
            have hws₂ : json.getD p₂.pos 0 = 9 ∨ json.getD p₂.pos 0 = 13 ∨
                json.getD p₂.pos 0 = 10 ∨ json.getD p₂.pos 0 = 32 := by
              rw [← hpose]; exact hws
            have hrun' : parseLoop json f { p₁ with pos := p₁.pos + 1 } = r := hrun
            have hout := ih { p₁ with pos := p₁.pos + 1 } { p₂ with pos := p₂.pos + 1 } r hrun'
              ⟨by show p₁.pos + 1 = p₂.pos + 1; omega, htn, hsupe, htok⟩
              ((Inv_set_pos p₁ _).mpr hInv) hcap₂
            apply RelOut_step ?_ ?_ hout
            · rw [parseLoop, if_pos hpos₂, if_neg hbr₂, if_neg hcl₂,
                if_neg hqt₂, if_pos hws₂]
            · rfl
          · rw [if_neg hws] at hrun
            have hws₂ : ¬ (json.getD p₂.pos 0 = 9 ∨ json.getD p₂.pos 0 = 13 ∨
                json.getD p₂.pos 0 = 10 ∨ json.getD p₂.pos 0 = 32) := by
              rw [← hpose]; exact hws
            by_cases hco : json.getD p₁.pos 0 = 58
            · rw [if_pos hco] at hrun
              have hco₂ : json.getD p₂.pos 0 = 58 := by rw [← hpose]; exact hco
              have hrun' : parseLoop json f { p₁ with pos := p₁.pos + 1 } = r :=
                hrun
              have hout := ih { p₁ with pos := p₁.pos + 1 } { p₂ with pos := p₂.pos + 1 } r hrun'
                ⟨by show p₁.pos + 1 = p₂.pos + 1; omega, htn, hsupe, htok⟩
                ((Inv_set_pos p₁ _).mpr hInv) hcap₂
              apply RelOut_step ?_ ?_ hout
              · rw [parseLoop, if_pos hpos₂, if_neg hbr₂, if_neg hcl₂,
                  if_neg hqt₂, if_neg hws₂, if_pos hco₂]
              · rfl
            · rw [if_neg hco] at hrun
              have hco₂ : ¬ json.getD p₂.pos 0 = 58 := by
                rw [← hpose]; exact hco
              by_cases hcm : json.getD p₁.pos 0 = 44
              · rw [if_pos hcm] at hrun
                have hcm₂ : json.getD p₂.pos 0 = 44 := by
                  rw [← hpose]; exact hcm
                have hpop : ¬ (p₁.toksuper ≠ -1 ∧
                    (p₁.tokens.getD p₁.toksuper.toNat default).type ≠ .array ∧
                    (p₁.tokens.getD p₁.toksuper.toNat default).type ≠ .object) := by
                  intro hcon
                  obtain ⟨hs, hna, hno⟩ := hcon
                  rcases hInv.2.1 with h1 | ⟨m, hm, hmv, hcont⟩
                  · exact hs h1
                  · have hmt : p₁.toksuper.toNat = m := by omega
                    rw [hmt] at hna hno
                    rcases hcont with hobj | harr
                    · exact hno hobj
                    · exact hna harr
                have hpop₂ : ¬ (p₂.toksuper ≠ -1 ∧
                    (p₂.tokens.getD p₂.toksuper.toNat default).type ≠ .array ∧
                    (p₂.tokens.getD p₂.toksuper.toNat default).type ≠ .object) := by
                  intro hcon
                  obtain ⟨hs, hna, hno⟩ := hcon
                  rcases hInv.2.1 with h1 | ⟨m, hm, hmv, hcont⟩
                  · exact hs (hsupe ▸ h1)
                  · have hmt : p₂.toksuper.toNat = m := by
                      rw [← hsupe]; omega
                    rw [hmt, ← htok m hm] at hna hno
                    rcases hcont with hobj | harr
                    · exact hno hobj
                    · exact hna harr
                rw [if_neg hpop] at hrun
                have hrun' : parseLoop json f { p₁ with pos := p₁.pos + 1 } = r :=
                  hrun
                have hout := ih { p₁ with pos := p₁.pos + 1 } { p₂ with pos := p₂.pos + 1 } r hrun'
                  ⟨by show p₁.pos + 1 = p₂.pos + 1; omega, htn, hsupe, htok⟩
                  ((Inv_set_pos p₁ _).mpr hInv) hcap₂
                apply RelOut_step ?_ ?_ hout
                · rw [parseLoop, if_pos hpos₂, if_neg hbr₂, if_neg hcl₂,
                    if_neg hqt₂, if_neg hws₂, if_neg hco₂, if_pos hcm₂,
                    if_neg hpop₂]
                · rfl
              · rw [if_neg hcm] at hrun
                have hcm₂ : ¬ json.getD p₂.pos 0 = 44 := by
                  rw [← hpose]; exact hcm
                have hprel := @parsePrimitive_rel p₁ p₂ json ⟨hpose, htn, hsupe, htok⟩ hsupP
                cases hprim₁ : p₁.parsePrimitive json with
                | error e' =>
                  rw [hprim₁] at hrun
                  have h2 : (Except.error e' : Except Err Parser) = r := hrun
                  subst h2
                  intro hne hlen
                  have hprim₂ := hprel.2 e' hprim₁ hne
                  rw [parseLoop, if_pos hpos₂, if_neg hbr₂, if_neg hcl₂,
                    if_neg hqt₂, if_neg hws₂, if_neg hco₂, if_neg hcm₂, hprim₂]
                | ok pp₁ =>
                  rw [hprim₁] at hrun
                  have hrun' : parseLoop json f pp₁ = r := hrun
                  obtain ⟨hptn, -, hplen, -, hpcap⟩ :=
                    parsePrimitive_ok_spec hprim₁
                  have hInv' : Inv pp₁ := parsePrimitive_inv hInv hprim₁
                  by_cases htk2 : p₂.toknext < p₂.tokens.length
                  · obtain ⟨pp₂, hprim₂, hrelpp, hlenpp⟩ :=
                      (hprel.1 pp₁ hprim₁).1 htk2
                    obtain ⟨hptn₂, -, hplen₂, -, -⟩ :=
                      parsePrimitive_ok_spec hprim₂
                    have hcap₂' : pp₂.toknext ≤ pp₂.tokens.length := by omega
                    have hout := ih _ _ r hrun' hrelpp hInv' hcap₂'
                    rw [hplen] at hout
                    apply RelOut_step ?_ ?_ hout
                    · rw [parseLoop, if_pos hpos₂, if_neg hbr₂, if_neg hcl₂,
                        if_neg hqt₂, if_neg hws₂, if_neg hco₂, if_neg hcm₂,
                        hprim₂]
                    · exact hlenpp
                  · have hge : p₂.tokens.length ≤ p₂.toknext := by omega
                    refine RelOut_overflow hrun' ?_ ?_ ?_ hge
                    · rw [parseLoop, if_pos hpos₂, if_neg hbr₂, if_neg hcl₂,
                        if_neg hqt₂, if_neg hws₂, if_neg hco₂, if_neg hcm₂,
                        (hprel.1 pp₁ hprim₁).2 hge]
                    · omega
                    · omega

end MainLoop

section ParseLevel

/-- Reading the same scanner as its own shadow shows the token array
capacity never changes across the dispatch loop. -/
theorem parseLoop_len {json : List Nat} {fuel : Nat} {p q : Parser}
    (hInv : Inv p) (h : parseLoop json fuel p = .ok q) :
    q.tokens.length = p.tokens.length := by
  have hrel := parseLoop_rel json fuel p p (.ok q) h
    ⟨rfl, rfl, rfl, fun k _ => rfl⟩ hInv hInv.1
  by_cases hle : q.toknext ≤ p.tokens.length
  · obtain ⟨q₂, h2, -, hlen⟩ := hrel.1 hle
    rw [h] at h2
    simp only [Except.ok.injEq] at h2
    subst h2
    exact hlen
  · have h2 := hrel.2 (by omega)
    rw [h] at h2
    simp at h2

theorem Inv_reset (p : Parser) :
    Inv { p with pos := 0, toknext := 0, toksuper := -1 } := by
  refine ⟨Nat.zero_le _, Or.inl rfl, ?_, ?_⟩
  · intro i hi
    exact absurd hi (Nat.not_lt_zero i)
  · intro j hj
    exact absurd hj (Nat.not_lt_zero j)

theorem reset_len (cap : Nat) :
    ({ NewParser cap with pos := 0, toknext := 0, toksuper := -1 } :
      Parser).tokens.length = cap := by
  show (List.replicate cap (default : Token)).length = cap
  exact List.length_replicate cap default

theorem normalizeTok_fields (len : Nat) (t : Token) :
    (normalizeTok len t).parentIdx = t.parentIdx ∧
    (normalizeTok len t).type = t.type ∧
    (normalizeTok len t).size = t.size := by
  unfold normalizeTok
  split <;> exact ⟨rfl, rfl, rfl⟩

theorem Parse_char (p : Parser) (json : List Nat) :
    p.Parse json =
      match parseLoop json (json.length + 1)
          { p with pos := 0, toknext := 0, toksuper := -1 } with
      | .error e => .error e
      | .ok q =>
        if q.toksuper ≠ -1 then .error .unclosedContainer
        else .ok ({ q with tokens := q.tokens.map (normalizeTok json.length) },
          q.toknext) := rfl

/-- Decomposition of a successful Parse run. -/
theorem Parse_ok_spec {cap : Nat} {json : List Nat} {q : Parser} {n : Nat}
    (h : (NewParser cap).Parse json = .ok (q, n)) :
    ∃ q₀, parseLoop json (json.length + 1)
        { NewParser cap with pos := 0, toknext := 0, toksuper := -1 } = .ok q₀ ∧
      q₀.toksuper = -1 ∧
      q = { q₀ with tokens := q₀.tokens.map (normalizeTok json.length) } ∧
      n = q₀.toknext := by
  rw [Parse_char] at h
  cases hloop : parseLoop json (json.length + 1)
      { NewParser cap with pos := 0, toknext := 0, toksuper := -1 } with
  | error e => rw [hloop] at h; simp at h
  | ok q₀ =>
    rw [hloop] at h
    have h2 : (if q₀.toksuper ≠ -1 then
          (Except.error Err.unclosedContainer : Except Err (Parser × Nat))
        else .ok ({ q₀ with tokens := q₀.tokens.map (normalizeTok json.length) },
          q₀.toknext)) = .ok (q, n) := h
    by_cases hsn : q₀.toksuper ≠ -1
    · rw [if_pos hsn] at h2; simp at h2
    · rw [if_neg hsn] at h2
      simp only [Except.ok.injEq, Prod.mk.injEq] at h2
      exact ⟨q₀, rfl, not_not.mp hsn, h2.1.symm, h2.2.symm⟩

/-- A successful Parse yields an invariant-satisfying final state with the
reported count and a cleared container cursor. -/
theorem Parse_ok_inv {cap : Nat} {json : List Nat} {q : Parser} {n : Nat}
    (h : (NewParser cap).Parse json = .ok (q, n)) :
    Inv q ∧ n = q.toknext ∧ q.toksuper = -1 := by
  obtain ⟨q₀, hloop, hsup, hq, hn⟩ := Parse_ok_spec h
  have hInv₀ : Inv q₀ := parseLoop_inv json _ _ _ (Inv_reset (NewParser cap)) hloop
  have hInvq : Inv { q₀ with tokens := q₀.tokens.map (normalizeTok json.length) } := by
    refine Inv_components_of_eq ?_ ?_ ?_ ?_ hInv₀
    · rfl
    · exact List.length_map q₀.tokens (normalizeTok json.length)
    · intro k hk
      have hkl : k < q₀.tokens.length := by
        have h1 := hInv₀.1
        omega
      show ((q₀.tokens.map (normalizeTok json.length)).getD k default).parentIdx =
          (q₀.tokens.getD k default).parentIdx ∧
        ((q₀.tokens.map (normalizeTok json.length)).getD k default).type =
          (q₀.tokens.getD k default).type ∧
        ((q₀.tokens.map (normalizeTok json.length)).getD k default).size =
          (q₀.tokens.getD k default).size
      rw [getD_map_lt hkl _ _ default]
      exact normalizeTok_fields json.length (q₀.tokens.getD k default)
    · exact Or.inl hsup
  subst hq
  exact ⟨hInvq, hn, hsup⟩

/-- Capacity transfer for Parse: any capacity at least the number of
tokens the input needs produces the same count and the same token
slice. -/
theorem Parse_transfer {json : List Nat} {c₁ c₂ n : Nat} {q : Parser}
    (h : (NewParser c₁).Parse json = .ok (q, n)) (hc : n ≤ c₂) :
    ∃ q₂, (NewParser c₂).Parse json = .ok (q₂, n) ∧ q₂.Tokens = q.Tokens := by
  obtain ⟨q₀, hloop, hsup, hq, hn⟩ := Parse_ok_spec h
  have hInv₀ : Inv q₀ :=
    parseLoop_inv json _ _ _ (Inv_reset (NewParser c₁)) hloop
  have hrel := parseLoop_rel json (json.length + 1)
    { NewParser c₁ with pos := 0, toknext := 0, toksuper := -1 }
    { NewParser c₂ with pos := 0, toknext := 0, toksuper := -1 }
    (.ok q₀) hloop ⟨rfl, rfl, rfl, fun k hk => absurd hk (Nat.not_lt_zero k)⟩
    (Inv_reset (NewParser c₁)) (by rw [reset_len]; exact Nat.zero_le _)
  obtain ⟨q₂₀, hloop₂, ⟨hpe2, htn2, hsup2, htok2⟩, hlen₂⟩ :=
    hrel.1 (by rw [reset_len]; omega)
  rw [reset_len] at hlen₂
  refine ⟨{ q₂₀ with tokens := q₂₀.tokens.map (normalizeTok json.length) }, ?_, ?_⟩
  · rw [Parse_char, hloop₂]
    show (if q₂₀.toksuper ≠ -1 then
          (Except.error Err.unclosedContainer : Except Err (Parser × Nat))
        else .ok ({ q₂₀ with
            tokens := q₂₀.tokens.map (normalizeTok json.length) },
          q₂₀.toknext)) =
      .ok ({ q₂₀ with tokens := q₂₀.tokens.map (normalizeTok json.length) }, n)
    rw [if_neg (show ¬ q₂₀.toksuper ≠ -1 by rw [← hsup2]; simp [hsup])]
    have heq : q₂₀.toknext = n := by omega
    rw [heq]
  · subst hq
    show (q₂₀.tokens.map (normalizeTok json.length)).take q₂₀.toknext =
      (q₀.tokens.map (normalizeTok json.length)).take q₀.toknext
    rw [← htn2, ← List.map_take, ← List.map_take]
    have htake : q₂₀.tokens.take q₀.toknext = q₀.tokens.take q₀.toknext := by
      apply take_eq_of_getD default
      · omega
      · have := hInv₀.1
        omega
      · intro k hk
        exact (htok2 k (by omega)).symm
    exact congrArg (List.map (normalizeTok json.length)) htake

/-- Capacity transfer, failing side: one slot fewer than the input needs
turns success into an overflow error. -/
theorem Parse_transfer_overflow {json : List Nat} {c₁ c₂ n : Nat} {q : Parser}
    (h : (NewParser c₁).Parse json = .ok (q, n)) (hc : c₂ < n) :
    (NewParser c₂).Parse json = .error .overflow := by
  obtain ⟨q₀, hloop, hsup, hq, hn⟩ := Parse_ok_spec h
  have hrel := parseLoop_rel json (json.length + 1)
    { NewParser c₁ with pos := 0, toknext := 0, toksuper := -1 }
    { NewParser c₂ with pos := 0, toknext := 0, toksuper := -1 }
    (.ok q₀) hloop ⟨rfl, rfl, rfl, fun k hk => absurd hk (Nat.not_lt_zero k)⟩
    (Inv_reset (NewParser c₁)) (by rw [reset_len]; exact Nat.zero_le _)
  have hov := hrel.2 (by rw [reset_len]; omega)
  rw [Parse_char, hov]

/-- Capacity transfer for non-overflow errors: a larger capacity fails
the same way. -/
theorem Parse_transfer_err {json : List Nat} {c₁ c₂ : Nat} {e : Err}
    (h : (NewParser c₁).Parse json = .error e) (hne : e ≠ .overflow)
    (hc : c₁ ≤ c₂) : (NewParser c₂).Parse json = .error e := by
  rw [Parse_char] at h
  cases hloop : parseLoop json (json.length + 1)
      { NewParser c₁ with pos := 0, toknext := 0, toksuper := -1 } with
  | error e' =>
    rw [hloop] at h
    have h2 : (Except.error e' : Except Err (Parser × Nat)) = .error e := h
    simp only [Except.error.injEq] at h2
    subst h2
    have hrel := parseLoop_rel json (json.length + 1)
      { NewParser c₁ with pos := 0, toknext := 0, toksuper := -1 }
      { NewParser c₂ with pos := 0, toknext := 0, toksuper := -1 }
      (.error e') hloop ⟨rfl, rfl, rfl, fun k hk => absurd hk (Nat.not_lt_zero k)⟩
      (Inv_reset (NewParser c₁)) (by rw [reset_len]; exact Nat.zero_le _)
    have hrun₂ := hrel hne (by rw [reset_len, reset_len]; exact hc)
    rw [Parse_char, hrun₂]
  | ok q₀ =>
    rw [hloop] at h
    have h2 : (if q₀.toksuper ≠ -1 then
          (Except.error Err.unclosedContainer : Except Err (Parser × Nat))
        else .ok ({ q₀ with tokens := q₀.tokens.map (normalizeTok json.length) },
          q₀.toknext)) = .error e := h
    by_cases hsn : q₀.toksuper ≠ -1
    · rw [if_pos hsn] at h2
      simp only [Except.error.injEq] at h2
      subst h2
      have hInv₀ : Inv q₀ :=
        parseLoop_inv json _ _ _ (Inv_reset (NewParser c₁)) hloop
      have hlen₀ : q₀.tokens.length = c₁ := by
        have hl := parseLoop_len (Inv_reset (NewParser c₁)) hloop
        rw [reset_len] at hl
        exact hl
      have hrel := parseLoop_rel json (json.length + 1)
        { NewParser c₁ with pos := 0, toknext := 0, toksuper := -1 }
        { NewParser c₂ with pos := 0, toknext := 0, toksuper := -1 }
        (.ok q₀) hloop
        ⟨rfl, rfl, rfl, fun k hk => absurd hk (Nat.not_lt_zero k)⟩
        (Inv_reset (NewParser c₁)) (by rw [reset_len]; exact Nat.zero_le _)
      obtain ⟨q₂₀, hloop₂, ⟨-, htn2, hsup2, -⟩, -⟩ := hrel.1
        (by rw [reset_len]; have h1 := hInv₀.1; omega)
      rw [Parse_char, hloop₂]
      show (if q₂₀.toksuper ≠ -1 then
            (Except.error Err.unclosedContainer : Except Err (Parser × Nat))
          else .ok ({ q₂₀ with
              tokens := q₂₀.tokens.map (normalizeTok json.length) },
            q₂₀.toknext)) = .error .unclosedContainer
      rw [if_pos (show q₂₀.toksuper ≠ -1 by rw [← hsup2]; exact hsn)]
    · rw [if_neg hsn] at h2
      simp at h2

end ParseLevel

section Claims

/-- C1: for the input of the first spec example and any capacity of at
least 8, Parse succeeds with exactly 8 tokens: one Object with Size 4,
String tokens for key, value and arr with the Object as parent, one
Array with Size 3 and ParentIdx the Object index, and three Primitive
tokens spanning the digits 1, 2 and 3 with the Array as parent. -/
theorem C1_example_tokens (cap : Nat) (hcap : 8 ≤ cap) :
    ∃ q, (NewParser cap).Parse ex1 = .ok (q, 8) ∧
      q.Tokens =
        [⟨.object, 0, 34, 4, -1⟩, ⟨.string, 2, 5, 0, 0⟩,
         ⟨.string, 9, 14, 0, 0⟩, ⟨.string, 18, 21, 0, 0⟩,
         ⟨.array, 24, 33, 3, 0⟩, ⟨.primitive, 25, 26, 0, 4⟩,
         ⟨.primitive, 28, 29, 0, 4⟩, ⟨.primitive, 31, 32, 0, 4⟩] := by
  have h8 : (NewParser 8).Parse ex1 = .ok (ex1Parsed, 8) := rfl
  obtain ⟨q₂, hq₂, htok⟩ := Parse_transfer h8 hcap
  refine ⟨q₂, hq₂, ?_⟩
  rw [htok]
  rfl

theorem C1_example_tokens_w :
    8 ≤ 8 ∧
    ∃ q, (NewParser 8).Parse ex1 = .ok (q, 8) ∧
      q.Tokens =
        [⟨.object, 0, 34, 4, -1⟩, ⟨.string, 2, 5, 0, 0⟩,
         ⟨.string, 9, 14, 0, 0⟩, ⟨.string, 18, 21, 0, 0⟩,
         ⟨.array, 24, 33, 3, 0⟩, ⟨.primitive, 25, 26, 0, 4⟩,
         ⟨.primitive, 28, 29, 0, 4⟩, ⟨.primitive, 31, 32, 0, 4⟩] :=
  ⟨by decide, C1_example_tokens 8 (by decide)⟩

/-- C2: a colon byte (58) in the dispatch loop only advances the
position by one; the rest of the scanner state is passed on unchanged,
so in particular the current-container cursor is not reassigned to the
just-emitted key token. -/
theorem C2_colon_step (json : List Nat) (p : Parser) (fuel : Nat)
    (h1 : p.pos < json.length) (h2 : json.getD p.pos 0 = 58) :
    parseLoop json (fuel + 1) p =
      parseLoop json fuel { p with pos := p.pos + 1 } := by
  rw [parseLoop, if_pos h1, if_neg (by omega), if_neg (by omega),
    if_neg (by omega), if_neg (by omega), if_pos h2]

theorem C2_colon_step_w :
    (0 : Nat) < ([58] : List Nat).length ∧ ([58] : List Nat).getD 0 0 = 58 ∧
    parseLoop [58] 1 ⟨0, 0, -1, []⟩ =
      parseLoop [58] 0 ⟨0 + 1, 0, -1, []⟩ :=
  ⟨by decide, by decide,
    C2_colon_step [58] ⟨0, 0, -1, []⟩ 0 (by decide) (by decide)⟩

/-- C3: when some capacity tokenizes the input into exactly n tokens,
capacity n still succeeds with the same token slice, and capacity n - 1
fails with the overflow error: the array is never grown and no token is
silently dropped. -/
theorem C3_capacity_boundary (json : List Nat) (cap₀ n : Nat) (q : Parser)
    (h : (NewParser cap₀).Parse json = .ok (q, n)) (hn : 0 < n) :
    (∃ q', (NewParser n).Parse json = .ok (q', n) ∧ q'.Tokens = q.Tokens) ∧
    (NewParser (n - 1)).Parse json = .error .overflow := by
  constructor
  · exact Parse_transfer h (Nat.le_refl n)
  · exact Parse_transfer_overflow h (by omega)

theorem C3_capacity_boundary_w :
    (NewParser 10).Parse ex1 = .ok (ex1Parsed10, 8) ∧ 0 < 8 ∧
    ((∃ q', (NewParser 8).Parse ex1 = .ok (q', 8) ∧
        q'.Tokens = ex1Parsed10.Tokens) ∧
      (NewParser (8 - 1)).Parse ex1 = .error .overflow) :=
  ⟨rfl, by decide, C3_capacity_boundary ex1 10 8 ex1Parsed10 rfl (by decide)⟩

/-- C4: after a successful Parse, every token whose ParentIdx is not the
sentinel points at an earlier-indexed token of kind Object or Array,
never at a String or Primitive. -/
theorem C4_parent_links (json : List Nat) (cap : Nat) (q : Parser) (n : Nat)
    (h : (NewParser cap).Parse json = .ok (q, n)) (i : Nat) (hi : i < n)
    (hne : (q.Tokens.getD i default).parentIdx ≠ -1) :
    ∃ j : Nat, (q.Tokens.getD i default).parentIdx = (j : Int) ∧ j < i ∧
      ((q.Tokens.getD j default).type = .object ∨
        (q.Tokens.getD j default).type = .array) := by
  obtain ⟨hInv, hn', -⟩ := Parse_ok_inv h
  subst hn'
  obtain ⟨hcap, -, hpo, -⟩ := hInv
  have hpi := hpo i hi
  unfold parentOk at hpi
  have hbi : q.Tokens.getD i default = q.tokens.getD i default :=
    getD_take hi default
  rcases hpi with h1 | ⟨m, hmi, hmv, hcont⟩
  · rw [hbi] at hne
    exact absurd h1 hne
  · refine ⟨m, ?_, hmi, ?_⟩
    · rw [hbi]
      exact hmv
    · have hbm : q.Tokens.getD m default = q.tokens.getD m default :=
        getD_take (by omega) default
      rw [hbm]
      exact hcont

theorem C4_parent_links_w :
    (NewParser 8).Parse ex1 = .ok (ex1Parsed, 8) ∧ (5 : Nat) < 8 ∧
    (ex1Parsed.Tokens.getD 5 default).parentIdx ≠ -1 ∧
    (∃ j : Nat, (ex1Parsed.Tokens.getD 5 default).parentIdx = (j : Int) ∧
      j < 5 ∧
      ((ex1Parsed.Tokens.getD j default).type = .object ∨
        (ex1Parsed.Tokens.getD j default).type = .array)) :=
  ⟨rfl, by decide, by decide,
    C4_parent_links ex1 8 ex1Parsed 8 rfl 5 (by decide) (by decide)⟩

/-- C5: parsing the truncated object of the third spec example (missing
closing brace) with adequate capacity fails with the unclosed-container
error of the strict post-loop validation; no parser state or token count
is reported. -/
theorem C5_unclosed_container (cap : Nat) (h : 3 ≤ cap) :
    (NewParser cap).Parse ex3 = .error .unclosedContainer := by
  have h3 : (NewParser 3).Parse ex3 = .error .unclosedContainer := rfl
  exact Parse_transfer_err h3 (by decide) h

theorem C5_unclosed_container_w :
    3 ≤ 3 ∧ (NewParser 3).Parse ex3 = .error .unclosedContainer :=
  ⟨by decide, C5_unclosed_container 3 (by decide)⟩

/-- C6: the string sub-scanner treats a backslash plus the next byte as
an uninterpreted two-byte unit (the scan firstUnescapedQuote), fails
with the unclosed-string error exactly when no unescaped closing quote
exists before the end of the buffer, and otherwise, given a free token
slot, allocates a String token whose span excludes both quote
characters, with End at the closing quote position and the current
container as parent, resuming just past the closing quote. -/
theorem C6_string_scanner (json : List Nat) (p : Parser) (hsup : SupOk p) :
    (p.parseString json = .error .unclosedString ↔
      firstUnescapedQuote json (p.pos + 1) = none) ∧
    (∀ e, firstUnescapedQuote json (p.pos + 1) = some e →
      json.getD e 0 = 34 ∧ e < json.length ∧
      (p.toknext < p.tokens.length →
        ∃ q, p.parseString json = .ok q ∧ q.pos = e + 1 ∧
          q.toknext = p.toknext + 1 ∧
          q.tokens.getD p.toknext default =
            { type := .string, startPos := ((p.pos + 1 : Nat) : Int),
              endPos := (e : Int), size := 0, parentIdx := p.toksuper })) := by
  constructor
  · constructor
    · intro herr
      cases hq : firstUnescapedQuote json (p.pos + 1) with
      | none => rfl
      | some e =>
        obtain ⟨her, hok⟩ := parseString_of_some hq
        cases halloc : p.allocToken (strTok p e) with
        | error er =>
          rw [her er halloc] at herr
          simp only [Except.error.injEq] at herr
          have hov := allocToken_err halloc
          rw [herr] at hov
          simp at hov
        | ok p1 =>
          rw [hok p1 halloc] at herr
          simp at herr
    · intro hq
      exact parseString_of_none hq
  · intro e hq
    have hfq := firstUnescapedQuote_some hq
    refine ⟨hfq.2.2, hfq.2.1, ?_⟩
    intro hlt
    obtain ⟨her, hok⟩ := parseString_of_some hq
    obtain ⟨p1, halloc⟩ := allocToken_ok_of_lt (strTok p e) hlt
    refine ⟨{ p1 with pos := e + 1 }, hok p1 halloc, rfl, ?_, ?_⟩
    · show p1.toknext = p.toknext + 1
      exact (allocToken_ok_spec halloc).2.2.2.1
    · show p1.tokens.getD p.toknext default = _
      rw [allocToken_getD_new halloc hsup]
      rfl

theorem C6_string_scanner_w :
    SupOk ⟨0, 0, -1, [default, default]⟩ ∧
    (((⟨0, 0, -1, [default, default]⟩ : Parser).parseString [34, 97, 34] =
        .error .unclosedString ↔
      firstUnescapedQuote [34, 97, 34] (0 + 1) = none) ∧
    (∀ e, firstUnescapedQuote [34, 97, 34] (0 + 1) = some e →
      ([34, 97, 34] : List Nat).getD e 0 = 34 ∧
      e < ([34, 97, 34] : List Nat).length ∧
      ((0 : Nat) < ([default, default] : List Token).length →
        ∃ q, (⟨0, 0, -1, [default, default]⟩ : Parser).parseString
            [34, 97, 34] = .ok q ∧ q.pos = e + 1 ∧ q.toknext = 0 + 1 ∧
          q.tokens.getD 0 default =
            { type := .string, startPos := ((0 + 1 : Nat) : Int),
              endPos := (e : Int), size := 0, parentIdx := -1 }))) :=
  ⟨Or.inl rfl,
    C6_string_scanner [34, 97, 34] ⟨0, 0, -1, [default, default]⟩ (Or.inl rfl)⟩

/-- C7: after any successful Parse, the Size of every Object or Array
token equals the number of result tokens whose ParentIdx is that
token's index. -/
theorem C7_size_children (json : List Nat) (cap : Nat) (q : Parser) (n : Nat)
    (h : (NewParser cap).Parse json = .ok (q, n)) (j : Nat) (hj : j < n)
    (hcont : (q.Tokens.getD j default).type = .object ∨
      (q.Tokens.getD j default).type = .array) :
    (q.Tokens.getD j default).size =
      q.Tokens.countP (fun t => decide (t.parentIdx = (j : Int))) := by
  obtain ⟨hInv, hn', -⟩ := Parse_ok_inv h
  subst hn'
  obtain ⟨hcap, -, -, hsz⟩ := hInv
  have hb : q.Tokens.getD j default = q.tokens.getD j default :=
    getD_take hj default
  rw [hb, hsz j hj]
  unfold childCount
  exact countP_range_take default
    (fun t => decide (t.parentIdx = (j : Int))) hcap

theorem C7_size_children_w :
    (NewParser 8).Parse ex1 = .ok (ex1Parsed, 8) ∧ (0 : Nat) < 8 ∧
    ((ex1Parsed.Tokens.getD 0 default).type = .object ∨
      (ex1Parsed.Tokens.getD 0 default).type = .array) ∧
    (ex1Parsed.Tokens.getD 0 default).size =
      ex1Parsed.Tokens.countP (fun t => decide (t.parentIdx = (0 : Int))) :=
  ⟨rfl, by decide, by decide,
    C7_size_children ex1 8 ex1Parsed 8 rfl 0 (by decide) (by decide)⟩

/-- C8: below the 512-byte threshold ParseParallel is the single
non-chunked scan: it returns exactly the same token slice and the same
error outcome as one Parse call with the same buffer and the same
capacity. -/
theorem C8_small_fallback (numCPU : Nat) (json : List Nat) (numTokens : Nat)
    (h : json.length < 512) :
    (∀ e, (NewParser numTokens).Parse json = .error e →
      ParseParallel numCPU json numTokens = .error e) ∧
    (∀ p n, (NewParser numTokens).Parse json = .ok (p, n) →
      ParseParallel numCPU json numTokens = .ok p.Tokens) := by
  constructor
  · intro e he
    unfold ParseParallel
    rw [if_pos h, he]
  · intro p n hp
    unfold ParseParallel
    rw [if_pos h, hp]

theorem C8_small_fallback_w :
    ([] : List Nat).length < 512 ∧
    ((∀ e, (NewParser 0).Parse [] = .error e →
      ParseParallel 1 [] 0 = .error e) ∧
    (∀ p n, (NewParser 0).Parse [] = .ok (p, n) →
      ParseParallel 1 [] 0 = .ok p.Tokens)) :=
  ⟨by decide, C8_small_fallback 1 [] 0 (by decide)⟩

/-- C9: ParseStream fails with the wrapped source error when reading the
byte source fails, and otherwise returns exactly the tokens and error
outcome of a direct Parse call on the fully materialized buffer with the
same capacity. -/
theorem C9_stream_delegates {ε : Type} (source : Except ε (List Nat))
    (numTokens : Nat) :
    (∀ e, source = .error e →
      ParseStream source numTokens = .error (.sourceRead e)) ∧
    (∀ json, source = .ok json →
      (∀ e, (NewParser numTokens).Parse json = .error e →
        ParseStream source numTokens = .error (.parse e)) ∧
      (∀ p n, (NewParser numTokens).Parse json = .ok (p, n) →
        ParseStream source numTokens = .ok p.Tokens)) := by
  constructor
  · intro e he
    subst he
    rfl
  · intro json hj
    subst hj
    constructor
    · intro e he
      show (match (NewParser numTokens).Parse json with
        | Except.error e => Except.error (StreamError.parse e)
        | Except.ok (p, _) => Except.ok p.Tokens) = _
      rw [he]
    · intro p n hp
      show (match (NewParser numTokens).Parse json with
        | Except.error e => Except.error (StreamError.parse e)
        | Except.ok (p, _) => Except.ok p.Tokens) = _
      rw [hp]

theorem C9_stream_delegates_w :
    (∀ e, (Except.ok [] : Except Unit (List Nat)) = .error e →
      ParseStream (Except.ok [] : Except Unit (List Nat)) 0 =
        .error (.sourceRead e)) ∧
    (∀ json, (Except.ok [] : Except Unit (List Nat)) = .ok json →
      (∀ e, (NewParser 0).Parse json = .error e →
        ParseStream (Except.ok [] : Except Unit (List Nat)) 0 =
          .error (.parse e)) ∧
      (∀ p n, (NewParser 0).Parse json = .ok (p, n) →
        ParseStream (Except.ok [] : Except Unit (List Nat)) 0 =
          .ok p.Tokens)) :=
  C9_stream_delegates (Except.ok [] : Except Unit (List Nat)) 0

/-- C10: Parse never reports the empty-primitive error: the primitive
sub-scanner only runs on a byte that no other dispatch case accepted,
which is never one of the delimiter bytes it stops on, so it always
advances past at least one byte and the zero-length-span error branch is
unreachable from Parse. -/
theorem C10_no_empty_primitive (json : List Nat) (cap : Nat) (e : Err)
    (h : (NewParser cap).Parse json = .error e) : e ≠ .emptyPrimitive := by
  rw [Parse_char] at h
  cases hloop : parseLoop json (json.length + 1)
      { NewParser cap with pos := 0, toknext := 0, toksuper := -1 } with
  | error e' =>
    rw [hloop] at h
    have h2 : (Except.error e' : Except Err (Parser × Nat)) = .error e := h
    simp only [Except.error.injEq] at h2
    subst h2
    exact parseLoop_err json _ _ _ hloop
  | ok q₀ =>
    rw [hloop] at h
    have h2 : (if q₀.toksuper ≠ -1 then
          (Except.error Err.unclosedContainer : Except Err (Parser × Nat))
        else .ok ({ q₀ with
            tokens := q₀.tokens.map (normalizeTok json.length) },
          q₀.toknext)) = .error e := h
    by_cases hsn : q₀.toksuper ≠ -1
    · rw [if_pos hsn] at h2
      simp only [Except.error.injEq] at h2
      subst h2
      decide
    · rw [if_neg hsn] at h2
      simp at h2

theorem C10_no_empty_primitive_w :
    (NewParser 3).Parse ex3 = .error .unclosedContainer ∧
    Err.unclosedContainer ≠ Err.emptyPrimitive :=
  ⟨rfl, C10_no_empty_primitive ex3 3 .unclosedContainer rfl⟩

end Claims

end Jsmn
